import Mathlib

/-!
Verification of the chunked YouTube-transcript summarization pipeline
(`modules/summarize.py`, `modules/transcript.py`, `modules/export.py`).

Python strings are embedded as `List Char`; each Python function used by the
claims is translated into a Lean function of the same name.  The LLM backend
(`client.chat.completions.create`) is an external collaborator and is embedded
as a function from a request record to `Except error content`; the functions
that call it additionally return the list of requests they issued, in order,
so that claims about the number and order of LLM calls can be stated.
-/

namespace YtSum

/-- Python whitespace characters recognised by `str.strip` / `\s` (ASCII). -/
def isSpace (c : Char) : Bool :=
  c = ' ' || c = '\t' || c = '\n' || c = '\r' || c = '\x0b' || c = '\x0c'

/-- Python `str.strip()`: drop leading and trailing whitespace. -/
def pyStrip (l : List Char) : List Char :=
  (((l.dropWhile isSpace).reverse.dropWhile isSpace).reverse)

/-- Python `str.replace(p1 ++ p2, r1 ++ r2)` for two-character pattern and
replacement: left-to-right, non-overlapping, skipping past each replacement. -/
def replacePair (p1 p2 r1 r2 : Char) : List Char → List Char
  | c1 :: c2 :: rest =>
    if c1 = p1 ∧ c2 = p2 then r1 :: r2 :: replacePair p1 p2 r1 r2 rest
    else c1 :: replacePair p1 p2 r1 r2 (c2 :: rest)
  | l => l

/-- Python `str.split(sep)` for a one-character separator: always returns at
least one (possibly empty) field. -/
def pySplit (sep : Char) : List Char → List (List Char)
  | [] => [[]]
  | c :: rest =>
    match pySplit sep rest with
    | [] => [[]]
    | g :: gs => if c = sep then [] :: g :: gs else (c :: g) :: gs

/-- Python `sep.join(parts)`. -/
def pyJoin (sep : List Char) : List (List Char) → List Char
  | [] => []
  | [s] => s
  | s :: rest => s ++ sep ++ pyJoin sep rest

/-- `summarize.py` line 132: the sentence-boundary split
`text.replace("? ", "?|").replace("! ", "!|").replace(". ", ".|").split("|")`. -/
def sentenceSplit (text : List Char) : List (List Char) :=
  pySplit '|'
    (replacePair '.' ' ' '.' '|'
      (replacePair '!' ' ' '!' '|'
        (replacePair '?' ' ' '?' '|' text)))

/-- The greedy sentence-packing loop of `chunk_text` (lines 134-151): the
first argument is the remaining sentences, the second the running
`current_chunk`; returns the chunks emitted from here on. -/
def chunkLoop (maxChars : Nat) : List (List Char) → List Char → List (List Char)
  | [], current => if current = [] then [] else [pyStrip current]
  | s :: rest, current =>
    let s' := pyStrip s
    if s' = [] then chunkLoop maxChars rest current
    else if maxChars < current.length + s'.length + 1 then
      (if current = [] then [] else [pyStrip current]) ++ chunkLoop maxChars rest s'
    else chunkLoop maxChars rest (if current = [] then s' else current ++ ' ' :: s')

/-- `summarize.py` constant `MAX_CHUNK_CHARS`. -/
def MAX_CHUNK_CHARS : Nat := 12000

/-- `chunk_text(text, max_chars)` from `summarize.py` lines 114-151. -/
def chunk_text (text : List Char) (maxChars : Nat) : List (List Char) :=
  if text.length ≤ maxChars then [text]
  else chunkLoop maxChars (sentenceSplit text) []

/-- Python `sub in s` substring test. -/
def pyIn (sub : List Char) : List Char → Bool
  | [] => sub = []
  | s@(_ :: rest) => sub.isPrefixOf s || pyIn sub rest

/-- Python `str.lower()` (ASCII letters). -/
def pyLower (l : List Char) : List Char := l.map Char.toLower

/-- Python `str.upper()` (ASCII letters). -/
def pyUpper (l : List Char) : List Char := l.map Char.toUpper

/-- `summarize.py` constant `SUMMARY_SYSTEM_PROMPT` (the full-summary prompt
used for the single direct call). -/
def SUMMARY_SYSTEM_PROMPT : List Char :=
  ("You are an expert analyst specializing in extracting key insights from video transcripts. \nYour summaries are concise, well-structured, and actionable.\n\nYou must format your response in the following structure:\n\n## Executive Summary\n- Provide 3-7 bullet points capturing the most important takeaways\n- Each bullet should be a complete, standalone insight\n\n## Key Points\nGroup the main themes or arguments logically. Use subheadings if there are distinct topics.\n- Explain each key point clearly and concisely\n- Include relevant context and implications\n\n## Notable Quotes & Facts\n- Include direct quotes that are particularly impactful or memorable (use quotation marks)\n- Highlight specific numbers, statistics, or data points mentioned\n- Provide brief context for each quote or fact\n\nKeep your language professional and clear. Avoid filler words and repetition.").data

/-- `summarize.py` constant `CHUNK_SUMMARY_PROMPT` (the per-segment prompt). -/
def CHUNK_SUMMARY_PROMPT : List Char :=
  ("Summarize this section of a transcript. Focus on:\n1. Main points and arguments made\n2. Key facts, numbers, or data mentioned\n3. Notable quotes or statements\n4. Important context or background information\n\nBe thorough but concise. This summary will be combined with summaries of other sections.").data

/-- `summarize.py` constant `META_SUMMARY_PROMPT` (the synthesis prompt). -/
def META_SUMMARY_PROMPT : List Char :=
  ("You are combining multiple section summaries from a single video transcript into one cohesive summary.\n\nThe following are summaries of different sections of the same transcript. Synthesize them into a single, well-organized summary following this exact structure:\n\n## Executive Summary\n- Provide 3-7 bullet points capturing the most important takeaways from the ENTIRE video\n- Each bullet should be a complete, standalone insight\n\n## Key Points\nGroup the main themes or arguments logically across all sections. Use subheadings if there are distinct topics.\n- Explain each key point clearly and concisely\n- Include relevant context and implications\n\n## Notable Quotes & Facts\n- Include the most impactful direct quotes from any section (use quotation marks)\n- Highlight specific numbers, statistics, or data points\n- Provide brief context for each\n\nEliminate redundancy while preserving all unique insights. Ensure the final summary reads as a cohesive whole, not as disconnected parts.").data

/-- One call to `client.chat.completions.create` as issued by `summarize.py`:
the model name, the system message, the user message and `max_tokens`
(`temperature` is 0.3 on every call and is omitted from the record). -/
structure ChatRequest where
  model : List Char
  system : List Char
  user : List Char
  maxTokens : Nat
deriving DecidableEq

/-- The LLM backend collaborator: a successful call returns the message
content, a failing call raises an exception carrying `str(e)`. -/
def Backend : Type := ChatRequest → Except (List Char) (List Char)

/-- The request built by `summarize_chunk` (lines 167-175). -/
def chunkRequest (model chunk : List Char) : ChatRequest :=
  ⟨model, CHUNK_SUMMARY_PROMPT, chunk, 2000⟩

/-- The request built by the single-chunk branch of `summarize_transcript`
(lines 249-257): the user message embeds the whole transcript. -/
def directRequest (model transcript : List Char) : ChatRequest :=
  ⟨model, SUMMARY_SYSTEM_PROMPT,
    ("Please summarize the following transcript:\n\n").data ++ transcript, 3000⟩

/-- The f-string `f"Section {i+1} Summary:\n{summary}"` of
`create_meta_summary` (line 196). -/
def sectionLabel (i : Nat) (s : List Char) : List Char :=
  ("Section ").data ++ (toString i).data ++ (" Summary:\n").data ++ s

/-- The delimiter joining section summaries in `create_meta_summary`. -/
def META_DELIM : List Char := ("\n\n---\n\n").data

/-- The synthesis payload of `create_meta_summary` (lines 195-198):
`"\n\n---\n\n".join(f"Section {i+1} Summary:\n{s}" for i, s in enumerate(...))`. -/
def combined_summaries (chunkSummaries : List (List Char)) : List Char :=
  pyJoin META_DELIM (chunkSummaries.enum.map fun p => sectionLabel (p.1 + 1) p.2)

/-- The request built by `create_meta_summary` (lines 201-209). -/
def metaRequest (model : List Char) (chunkSummaries : List (List Char)) : ChatRequest :=
  ⟨model, META_SUMMARY_PROMPT, combined_summaries chunkSummaries, 3000⟩

/-- `summarize_chunk` (lines 154-180): returns `(success, summary_or_error)`
paired with the list of backend requests issued. -/
def summarize_chunk (b : Backend) (chunk model : List Char) :
    (Bool × List Char) × List ChatRequest :=
  let req := chunkRequest model chunk
  match b req with
  | .ok content => ((true, content), [req])
  | .error e => ((false, ("Error summarizing chunk: ").data ++ e), [req])

/-- `create_meta_summary` (lines 183-214): returns
`(success, final_summary_or_error)` paired with the requests issued. -/
def create_meta_summary (b : Backend) (chunkSummaries : List (List Char))
    (model : List Char) : (Bool × List Char) × List ChatRequest :=
  let req := metaRequest model chunkSummaries
  match b req with
  | .ok content => ((true, content), [req])
  | .error e => ((false, ("Error creating meta-summary: ").data ++ e), [req])

/-- Error message for a missing API key (line 236). -/
def NO_KEY_MSG : List Char :=
  ("OpenAI API key not configured. Please set OPENAI_API_KEY in your environment.").data

/-- Error classification of the single-chunk branch (lines 261-269):
credential, then rate limit, then context length, then generic. -/
def classifySingleError (e : List Char) : List Char :=
  if pyIn ("api_key").data (pyLower e) then
    ("Invalid OpenAI API key. Please check your configuration.").data
  else if pyIn ("rate_limit").data (pyLower e) then
    ("Rate limit exceeded. Please wait a moment and try again.").data
  else if pyIn ("context_length").data (pyLower e)
      || pyIn ("maximum context").data (pyLower e) then
    ("Transcript too long for the model. Try a shorter video.").data
  else ("Error calling LLM API: ").data ++ e

/-- The `for i, chunk in enumerate(chunks)` loop of `summarize_transcript`
(lines 275-284): summarize each chunk in order, abort on the first failure. -/
def runChunks (b : Backend) (model : List Char) :
    List (List Char) → (Except (List Char) (List (List Char))) × List ChatRequest
  | [] => (.ok [], [])
  | c :: rest =>
    match summarize_chunk b c model with
    | ((true, s), t) =>
      match runChunks b model rest with
      | (.ok ss, t2) => (.ok (s :: ss), t ++ t2)
      | (.error e, t2) => (.error e, t ++ t2)
    | ((_, e), t) => (.error e, t)

/-- `summarize_transcript` (lines 217-290).  `client` is
`get_openai_client()` (`none` when no API key is configured), `model` is
`get_model()`; the progress callback only emits notifications and is omitted.
Returns `(success, summary_or_error)` paired with the ordered list of backend
requests issued. -/
def summarize_transcript (client : Option Backend) (model transcript : List Char) :
    (Bool × List Char) × List ChatRequest :=
  match client with
  | none => ((false, NO_KEY_MSG), [])
  | some b =>
    let chunks := chunk_text transcript MAX_CHUNK_CHARS
    if chunks.length = 1 then
      let req := directRequest model transcript
      match b req with
      | .ok content => ((true, content), [req])
      | .error e => ((false, classifySingleError e), [req])
    else
      match runChunks b model chunks with
      | (.ok summaries, t) =>
        match create_meta_summary b summaries model with
        | (r, t2) => (r, t ++ t2)
      | (.error e, t) => ((false, e), t)

/-- `re.sub(r'\s+', ' ', s)` from `fetch_transcript` (`transcript.py` lines
135 and 187): collapse every maximal whitespace run to one space. -/
def collapseWs : List Char → List Char
  | [] => []
  | c :: rest =>
    if isSpace c then
      if (collapseWs rest).head? = some ' ' then collapseWs rest
      else ' ' :: collapseWs rest
    else c :: collapseWs rest

/-- The text produced by a successful `fetch_transcript` (lines 132-137 and
184-189) from the snippet texts: `" ".join(...)`, whitespace collapsed,
stripped. -/
def fetched_text (snippets : List (List Char)) : List Char :=
  pyStrip (collapseWs (pyJoin [' '] snippets))

/-- The character class `[a-zA-Z0-9_-]` of the video-id regexes. -/
def isIdChar (c : Char) : Bool := c.isAlpha || c.isDigit || c = '_' || c = '-'

/-- Match `[a-zA-Z0-9_-]{11}` at the start of `l` and return the 11 matched
characters. -/
def grab11 (l : List Char) : Option (List Char) :=
  let v := l.take 11
  if v.length = 11 ∧ v.all isIdChar then some v else none

/-- Backtracking for `.+&v=([a-zA-Z0-9_-]{11})`: scan the positions after the
first dot-character, remember the latest `&v=ID` match (greedy `.+` keeps the
longest prefix), and stop at a newline (`.` does not match `\n`). -/
def ampScan : List Char → Option (List Char) → Option (List Char)
  | [], best => best
  | u@(c :: rest), best =>
    let best' :=
      if ("&v=").data.isPrefixOf u then
        match grab11 (u.drop 3) with
        | some v => some v
        | none => best
      else best
    if c = '\n' then best' else ampScan rest best'

/-- The second alternative of the standard pattern, applied to the text after
`youtube.com/watch?`: `.+&v=([a-zA-Z0-9_-]{11})`. -/
def altTwo : List Char → Option (List Char)
  | [] => none
  | c :: rest => if c = '\n' then none else ampScan rest none

/-- `re.search` of the standard pattern of `extract_video_id` (line 59):
`(?:youtube\.com\/watch\?v=|youtube\.com\/watch\?.+&v=)([a-zA-Z0-9_-]{11})` -
leftmost position wins, first alternative tried first. -/
def searchStandard : List Char → Option (List Char)
  | [] => none
  | s@(_ :: rest) =>
    let here :=
      if ("youtube.com/watch?").data.isPrefixOf s then
        let after := s.drop ("youtube.com/watch?").data.length
        if ("v=").data.isPrefixOf after then
          match grab11 (after.drop 2) with
          | some v => some v
          | none => altTwo after
        else altTwo after
      else none
    match here with
    | some v => some v
    | none => searchStandard rest

/-- `re.search` of a pattern `lit([a-zA-Z0-9_-]{11})` (the short, embed and
`/v/` patterns of `extract_video_id`, lines 62-68). -/
def searchLitId (lit : List Char) : List Char → Option (List Char)
  | [] => none
  | s@(_ :: rest) =>
    if lit.isPrefixOf s then
      match grab11 (s.drop lit.length) with
      | some v => some v
      | none => searchLitId lit rest
    else searchLitId lit rest

/-- `extract_video_id` (`transcript.py` lines 37-75): strip, then try the four
patterns in order. -/
def extract_video_id (url : List Char) : Option (List Char) :=
  if url = [] then none
  else
    let u := pyStrip url
    match searchStandard u with
    | some v => some v
    | none =>
      match searchLitId ("youtu.be/").data u with
      | some v => some v
      | none =>
        match searchLitId ("youtube.com/embed/").data u with
        | some v => some v
        | none => searchLitId ("youtube.com/v/").data u

/-- `validate_youtube_url` (`transcript.py` lines 78-102). -/
def validate_youtube_url (url : List Char) : Bool × List Char × Option (List Char) :=
  if url = [] ∨ pyStrip url = [] then
    (false, ("Please enter a YouTube URL.").data, none)
  else
    let u := pyStrip url
    if !(pyIn ("youtube.com").data (pyLower u) || pyIn ("youtu.be").data (pyLower u)) then
      (false, ("This doesn't appear to be a YouTube URL.").data, none)
    else
      match extract_video_id u with
      | none =>
        (false, ("Could not extract video ID from URL. Please check the URL format.").data,
          none)
      | some vid => (true, ("Valid YouTube URL.").data, some vid)

/-- Python truthiness of an optional string (`None` and `""` are falsy). -/
def pyTruthy (o : Option (List Char)) : Bool := !(o.getD []).isEmpty

/-- The per-line transform of `generate_txt` (`export.py` lines 32-43):
markdown headers become an uppercase line underlined with `=`. -/
def txtLines (line : List Char) : List (List Char) :=
  if ("## ").data.isPrefixOf line then
    [[], pyUpper (line.drop 3), List.replicate (line.drop 3).length '=']
  else if ("# ").data.isPrefixOf line then
    [[], pyUpper (line.drop 2), List.replicate (line.drop 2).length '=']
  else [line]

/-- `generate_txt` (`export.py` lines 16-53); the UTF-8 byte encoding is kept
as text.  Returns `(file_bytes, filename)`. -/
def generate_txt (summary : List Char) (videoId : Option (List Char)) :
    List Char × List Char :=
  let ls := ((pySplit '\n' summary).map txtLines).flatten
  (pyJoin ['\n'] ls,
    if pyTruthy videoId then ("summary_").data ++ videoId.getD [] ++ (".txt").data
    else ("summary.txt").data)

/-- `generate_md` (`export.py` lines 56-83). -/
def generate_md (summary : List Char) (videoId : Option (List Char)) :
    List Char × List Char :=
  let text := if summary.head? = some '#' then summary
    else ("# Video Summary\n\n").data ++ summary
  let text := if pyTruthy videoId then
      text ++ ("\n\n---\n*Generated from YouTube video: ").data ++ videoId.getD []
        ++ ("*").data
    else text
  (text,
    if pyTruthy videoId then ("summary_").data ++ videoId.getD [] ++ (".md").data
    else ("summary.md").data)

/-- `generate_pdf` (`export.py` lines 86-225): the ReportLab document build is
an external collaborator, embedded as the parameter `pdfRender`; the filename
logic (lines 222-223) is the source's. -/
def generate_pdf (pdfRender : List Char → Option (List Char) → List Char)
    (summary : List Char) (videoId : Option (List Char)) : List Char × List Char :=
  (pdfRender summary videoId,
    if pyTruthy videoId then ("summary_").data ++ videoId.getD [] ++ (".pdf").data
    else ("summary.pdf").data)

/-- `export_summary` (`export.py` lines 228-255): dispatch on the uppercased
format, `ValueError` embedded as `Except.error`. -/
def export_summary (pdfRender : List Char → Option (List Char) → List Char)
    (summary fmt : List Char) (videoId : Option (List Char)) :
    Except (List Char) (List Char × List Char × List Char) :=
  let f := pyUpper fmt
  if f = ("TXT").data then
    let r := generate_txt summary videoId
    .ok (r.1, r.2, ("text/plain").data)
  else if f = ("MD").data then
    let r := generate_md summary videoId
    .ok (r.1, r.2, ("text/markdown").data)
  else if f = ("PDF").data then
    let r := generate_pdf pdfRender summary videoId
    .ok (r.1, r.2, ("application/pdf").data)
  else .error (("Unsupported format: ").data ++ f)

/-! Derived definitions used to state and prove the claims. -/

/-- Sentence-ending punctuation recognised by the chunker. -/
def isPunct (c : Char) : Bool := c = '?' || c = '!' || c = '.'

/-- One-pass equivalent of the chunker's replace-replace-replace-split
sentence splitting, used in proofs (`sentenceSplit` agrees with it on inputs
without `'|'`). -/
def fusedSplit : List Char → List (List Char)
  | [] => [[]]
  | [c] => [[c]]
  | c1 :: c2 :: rest =>
    if isPunct c1 ∧ c2 = ' ' then [c1] :: fusedSplit rest
    else
      match fusedSplit (c2 :: rest) with
      | [] => [[]]
      | g :: gs => (c1 :: g) :: gs

/-- The stripped, non-empty sentences of a text, in order - exactly the
sentences the chunker's loop packs into segments. -/
def sentencesOf (text : List Char) : List (List Char) :=
  ((sentenceSplit text).map pyStrip).filter (fun p => !p.isEmpty)

/-- Modelled from the spec (§4.3): the synthesis payload as the spec words it -
each summary once, prefixed with its 1-based section index, separated by the
delimiter, in order; used as the spec side of the refinement claim C7. -/
def spec_synthesis_payload : Nat → List (List Char) → List Char
  | _, [] => []
  | i, [s] => sectionLabel i s
  | i, s :: rest => sectionLabel i s ++ META_DELIM ++ spec_synthesis_payload (i + 1) rest

/-- No two adjacent whitespace characters. -/
def noAdjWs : List Char → Bool
  | c1 :: c2 :: rest => !(isSpace c1 && isSpace c2) && noAdjWs (c2 :: rest)
  | _ => true

/-- Every whitespace character is a plain space. -/
def onlyPlainWs (l : List Char) : Bool := l.all (fun c => !isSpace c || c = ' ')

/-- No sentence boundary (punctuation followed by a space) occurs inside. -/
def noPS : List Char → Bool
  | c1 :: c2 :: rest => !(isPunct c1 && c2 = ' ') && noPS (c2 :: rest)
  | _ => true

/-- The last character exists and is sentence-ending punctuation. -/
def endsPunct (l : List Char) : Bool :=
  match l.getLast? with
  | some c => isPunct c
  | none => false

/-- Whether a backend call succeeded. -/
def isOkE : Except (List Char) (List Char) → Bool
  | .ok _ => true
  | .error _ => false

/-- The content of a successful backend response (empty on failure). -/
def okD : Except (List Char) (List Char) → List Char
  | .ok s => s
  | .error _ => []

/-- A concrete 12,101-character transcript: 11,999 `a`s, a sentence boundary
`. `, then 100 `b`s; it exceeds the default budget and chunks into two
segments. -/
def bigT : List Char := List.replicate 11999 'a' ++ '.' :: ' ' :: List.replicate 100 'b'

/-- The first segment of `bigT`: the 12,000-character first sentence. -/
def bigA : List Char := List.replicate 11999 'a' ++ ['.']

/-- The second segment of `bigT`: the 100-character second sentence. -/
def bigB : List Char := List.replicate 100 'b'

/-! ## Theorems -/

theorem replacePair_nil (p1 p2 r1 r2 : Char) : replacePair p1 p2 r1 r2 [] = [] := rfl

theorem replacePair_cons_ne1 (p1 p2 r1 r2 c : Char) (l : List Char) (h : c ≠ p1) :
    replacePair p1 p2 r1 r2 (c :: l) = c :: replacePair p1 p2 r1 r2 l := by
  cases l with
  | nil => rfl
  | cons a as =>
    have hn : ¬(c = p1 ∧ a = p2) := fun hc => h hc.1
    simp only [replacePair, if_neg hn]

theorem replacePair_cons_match (p1 p2 r1 r2 : Char) (l : List Char) :
    replacePair p1 p2 r1 r2 (p1 :: p2 :: l) = r1 :: r2 :: replacePair p1 p2 r1 r2 l := by
  simp [replacePair]

theorem replacePair_replicate (p1 p2 r1 r2 c : Char) (h : c ≠ p1) (n : Nat)
    (l : List Char) :
    replacePair p1 p2 r1 r2 (List.replicate n c ++ l)
      = List.replicate n c ++ replacePair p1 p2 r1 r2 l := by
  induction n with
  | zero => rw [List.replicate, List.nil_append, List.nil_append]
  | succ m ih =>
    rw [List.replicate_succ, List.cons_append,
      replacePair_cons_ne1 p1 p2 r1 r2 c _ h, ih, ← List.cons_append,
      ← List.replicate_succ]

theorem replacePair_replicate_nil (p1 p2 r1 r2 c : Char) (h : c ≠ p1) (n : Nat) :
    replacePair p1 p2 r1 r2 (List.replicate n c) = List.replicate n c := by
  have := replacePair_replicate p1 p2 r1 r2 c h n []
  rwa [List.append_nil, replacePair_nil, List.append_nil] at this

theorem pySplit_ne_nil (sep : Char) (l : List Char) : pySplit sep l ≠ [] := by
  cases l with
  | nil => simp [pySplit]
  | cons c rest =>
    simp only [pySplit]
    cases pySplit sep rest with
    | nil => simp
    | cons g gs => by_cases hc : c = sep <;> simp [hc]

theorem pySplit_no_sep (sep : Char) (l : List Char) (h : sep ∉ l) :
    pySplit sep l = [l] := by
  induction l with
  | nil => rfl
  | cons c rest ih =>
    have hc : ¬(c = sep) := fun hc => h (by rw [hc]; exact List.mem_cons_self _ _)
    rw [pySplit, ih (fun hm => h (List.mem_cons_of_mem _ hm))]
    simp only [if_neg hc]

theorem pySplit_append (sep : Char) (u v : List Char) (h : sep ∉ u) :
    pySplit sep (u ++ sep :: v) = u :: pySplit sep v := by
  induction u with
  | nil =>
    simp only [List.nil_append, pySplit]
    cases hv : pySplit sep v with
    | nil => exact absurd hv (pySplit_ne_nil sep v)
    | cons g gs => simp
  | cons c u' ih =>
    have hc : ¬(c = sep) := fun hc => h (by rw [hc]; exact List.mem_cons_self _ _)
    rw [List.cons_append, pySplit, ih (fun hm => h (List.mem_cons_of_mem _ hm))]
    simp only [if_neg hc]

theorem dropWhile_all_neg (p : Char → Bool) (l : List Char)
    (h : ∀ c ∈ l, p c = false) : l.dropWhile p = l := by
  cases l with
  | nil => rfl
  | cons c rest =>
    exact List.dropWhile_cons_of_neg (by simp [h c (List.mem_cons_self _ _)])

theorem pyStrip_all_nonspace (l : List Char) (h : ∀ c ∈ l, isSpace c = false) :
    pyStrip l = l := by
  unfold pyStrip
  rw [dropWhile_all_neg isSpace l h,
    dropWhile_all_neg isSpace l.reverse (fun c hc => h c (List.mem_reverse.mp hc)),
    List.reverse_reverse]

theorem bigA_nonspace : ∀ c ∈ bigA, isSpace c = false := by
  intro c hc
  rw [bigA, List.mem_append] at hc
  rcases hc with h | h
  · rw [(List.mem_replicate.mp h).2]; decide
  · rw [List.mem_singleton.mp h]; decide

theorem bigB_nonspace : ∀ c ∈ bigB, isSpace c = false := by
  intro c hc
  rw [bigB] at hc
  rw [(List.mem_replicate.mp hc).2]
  decide

theorem bigT_sentenceSplit : sentenceSplit bigT = [bigA, bigB] := by
  have r1 : replacePair '?' ' ' '?' '|' bigT = bigT := by
    rw [bigT, replacePair_replicate _ _ _ _ _ (by decide),
      replacePair_cons_ne1 _ _ _ _ _ _ (by decide),
      replacePair_cons_ne1 _ _ _ _ _ _ (by decide),
      replacePair_replicate_nil _ _ _ _ _ (by decide)]
  have r2 : replacePair '!' ' ' '!' '|' bigT = bigT := by
    rw [bigT, replacePair_replicate _ _ _ _ _ (by decide),
      replacePair_cons_ne1 _ _ _ _ _ _ (by decide),
      replacePair_cons_ne1 _ _ _ _ _ _ (by decide),
      replacePair_replicate_nil _ _ _ _ _ (by decide)]
  have r3 : replacePair '.' ' ' '.' '|' bigT
      = List.replicate 11999 'a' ++ '.' :: '|' :: List.replicate 100 'b' := by
    rw [bigT, replacePair_replicate _ _ _ _ _ (by decide), replacePair_cons_match,
      replacePair_replicate_nil _ _ _ _ _ (by decide)]
  have hsplit : List.replicate 11999 'a' ++ '.' :: '|' :: List.replicate 100 'b'
      = bigA ++ '|' :: bigB := by
    rw [bigA, bigB, List.append_assoc, List.singleton_append]
  have hnA : '|' ∉ bigA := by
    intro hm
    rw [bigA, List.mem_append] at hm
    rcases hm with h | h
    · exact absurd (List.mem_replicate.mp h).2 (by decide)
    · exact absurd (List.mem_singleton.mp h) (by decide)
  have hnB : '|' ∉ bigB := by
    intro hm
    rw [bigB] at hm
    exact absurd (List.mem_replicate.mp hm).2 (by decide)
  unfold sentenceSplit
  rw [r1, r2, r3, hsplit, pySplit_append _ _ _ hnA, pySplit_no_sep _ _ hnB]

theorem bigA_length : bigA.length = 12000 := by
  rw [bigA, List.length_append, List.length_replicate]
  rfl

theorem bigB_length : bigB.length = 100 := by
  rw [bigB, List.length_replicate]

theorem bigA_ne_nil : bigA ≠ [] := by
  intro h
  have := congrArg List.length h
  rw [bigA_length] at this
  exact absurd this (by decide)

theorem bigB_ne_nil : bigB ≠ [] := by
  intro h
  have := congrArg List.length h
  rw [bigB_length] at this
  exact absurd this (by decide)

theorem chunkLoop_nil_emit (maxChars : Nat) (current : List Char)
    (hcur : current ≠ []) : chunkLoop maxChars [] current = [pyStrip current] := by
  simp [chunkLoop, hcur]

theorem chunkLoop_cons_fresh (maxChars : Nat) (s : List Char)
    (rest : List (List Char)) (hs : pyStrip s ≠ [])
    (hover : maxChars < ([] : List Char).length + (pyStrip s).length + 1) :
    chunkLoop maxChars (s :: rest) [] = chunkLoop maxChars rest (pyStrip s) := by
  simp only [chunkLoop, if_neg hs]
  rw [if_pos hover]
  simp

theorem chunkLoop_cons_emit (maxChars : Nat) (s : List Char)
    (rest : List (List Char)) (current : List Char) (hs : pyStrip s ≠ [])
    (hover : maxChars < current.length + (pyStrip s).length + 1)
    (hcur : current ≠ []) :
    chunkLoop maxChars (s :: rest) current
      = pyStrip current :: chunkLoop maxChars rest (pyStrip s) := by
  simp only [chunkLoop, if_neg hs]
  rw [if_pos hover]
  simp [hcur]

theorem bigT_chunks : chunk_text bigT MAX_CHUNK_CHARS = [bigA, bigB] := by
  have hsA : pyStrip bigA = bigA := pyStrip_all_nonspace bigA bigA_nonspace
  have hsB : pyStrip bigB = bigB := pyStrip_all_nonspace bigB bigB_nonspace
  have hlen : bigT.length = 12101 := by
    rw [bigT, List.length_append, List.length_replicate, List.length_cons,
      List.length_cons, List.length_replicate]
  have hgt : ¬(bigT.length ≤ MAX_CHUNK_CHARS) := by
    rw [hlen]; decide
  rw [chunk_text, if_neg hgt, bigT_sentenceSplit,
    chunkLoop_cons_fresh MAX_CHUNK_CHARS bigA [bigB]
      (by rw [hsA]; exact bigA_ne_nil)
      (by rw [hsA, bigA_length]; decide),
    hsA,
    chunkLoop_cons_emit MAX_CHUNK_CHARS bigB [] bigA
      (by rw [hsB]; exact bigB_ne_nil)
      (by rw [hsB, bigA_length, bigB_length]; decide)
      bigA_ne_nil,
    hsA, hsB, chunkLoop_nil_emit MAX_CHUNK_CHARS bigB bigB_ne_nil, hsB]

theorem pyJoin_enumFrom (ls : List (List Char)) :
    ∀ n, pyJoin META_DELIM ((List.enumFrom n ls).map fun p => sectionLabel (p.1 + 1) p.2)
      = spec_synthesis_payload (n + 1) ls := by
  induction ls with
  | nil => intro n; simp [pyJoin, spec_synthesis_payload]
  | cons s rest ih =>
    intro n
    cases rest with
    | nil => simp [pyJoin, spec_synthesis_payload]
    | cons s2 rest2 =>
      simp only [List.enumFrom, List.map_cons, pyJoin, spec_synthesis_payload]
      have := ih (n + 1)
      simp only [List.enumFrom, List.map_cons] at this ⊢
      rw [this]

/-- C7: for every non-empty list of segment summaries, the synthesis payload
built by `create_meta_summary` lists each summary exactly once, prefixed with
its 1-based index as `Section i Summary`, separated by the fixed delimiter,
in the original order - it coincides with the payload the spec describes. -/
theorem claim_C7_synthesis_payload (ls : List (List Char)) (_h : ls ≠ []) :
    combined_summaries ls = spec_synthesis_payload 1 ls := by
  have := pyJoin_enumFrom ls 0
  simpa [combined_summaries, List.enum] using this

theorem claim_C7_witness :
    ((("a").data :: (("b").data :: ([] : List (List Char)))) ≠ []) ∧
      combined_summaries [("a").data, ("b").data]
        = spec_synthesis_payload 1 [("a").data, ("b").data] :=
  ⟨by decide, claim_C7_synthesis_payload [("a").data, ("b").data] (by decide)⟩

/-- C5 fails as stated: the fast path returns the text unchanged, not
trimmed - on `" a"` with budget 5 the single segment keeps its leading
space. -/
theorem claim_C5_counterexample :
    chunk_text ((" a").data) 5 = [(" a").data] ∧
      chunk_text ((" a").data) 5 ≠ [pyStrip ((" a").data)] := by
  constructor
  · decide
  · decide

/-- C5 amended: for every text `T` with `len(T) <= max_chars`, `chunk_text`
returns exactly one segment equal to `T` itself (unchanged, not trimmed). -/
theorem claim_C5_single_segment (T : List Char) (maxChars : Nat)
    (h : T.length ≤ maxChars) : chunk_text T maxChars = [T] := by
  simp [chunk_text, h]

theorem claim_C5_witness :
    ((("abc").data).length ≤ 5) ∧ chunk_text (("abc").data) 5 = [("abc").data] :=
  ⟨by decide, claim_C5_single_segment (("abc").data) 5 (by decide)⟩

/-- C10: `export_summary` dispatches on the uppercased format - TXT, MD and
PDF get mime types `text/plain`, `text/markdown` and `application/pdf`, any
other format raises `ValueError`; two formats with the same uppercasing are
treated identically. -/
theorem claim_C10_export_dispatch
    (pdfRender : List Char → Option (List Char) → List Char)
    (summary fmt : List Char) (videoId : Option (List Char)) :
    (pyUpper fmt = ("TXT").data →
      ∃ bs nm, export_summary pdfRender summary fmt videoId
        = .ok (bs, nm, ("text/plain").data)) ∧
    (pyUpper fmt = ("MD").data →
      ∃ bs nm, export_summary pdfRender summary fmt videoId
        = .ok (bs, nm, ("text/markdown").data)) ∧
    (pyUpper fmt = ("PDF").data →
      ∃ bs nm, export_summary pdfRender summary fmt videoId
        = .ok (bs, nm, ("application/pdf").data)) ∧
    (pyUpper fmt ≠ ("TXT").data → pyUpper fmt ≠ ("MD").data →
      pyUpper fmt ≠ ("PDF").data →
      export_summary pdfRender summary fmt videoId
        = .error (("Unsupported format: ").data ++ pyUpper fmt)) ∧
    (∀ fmt2, pyUpper fmt2 = pyUpper fmt →
      export_summary pdfRender summary fmt2 videoId
        = export_summary pdfRender summary fmt videoId) := by
  refine ⟨fun h => ?_, fun h => ?_, fun h => ?_, fun h1 h2 h3 => ?_, fun fmt2 h => ?_⟩
  · exact ⟨(generate_txt summary videoId).1, (generate_txt summary videoId).2,
      by simp [export_summary, h]⟩
  · have hne : pyUpper fmt ≠ ("TXT").data := by rw [h]; decide
    exact ⟨(generate_md summary videoId).1, (generate_md summary videoId).2,
      by simp [export_summary, h, hne]⟩
  · have hne : pyUpper fmt ≠ ("TXT").data := by rw [h]; decide
    have hne2 : pyUpper fmt ≠ ("MD").data := by rw [h]; decide
    exact ⟨(generate_pdf pdfRender summary videoId).1,
      (generate_pdf pdfRender summary videoId).2,
      by simp [export_summary, h, hne, hne2]⟩
  · simp [export_summary, h1, h2, h3]
  · simp [export_summary, h]

theorem create_meta_summary_trace (b : Backend) (ss : List (List Char))
    (model : List Char) :
    (create_meta_summary b ss model).2 = [metaRequest model ss] := by
  cases hb : b (metaRequest model ss) <;> simp [create_meta_summary, hb]

theorem runChunks_all_ok (b : Backend) (model : List Char) :
    ∀ chunks : List (List Char),
      (∀ c ∈ chunks, isOkE (b (chunkRequest model c)) = true) →
      runChunks b model chunks
        = (.ok (chunks.map fun c => okD (b (chunkRequest model c))),
            chunks.map (chunkRequest model)) := by
  intro chunks
  induction chunks with
  | nil => intro _; rfl
  | cons c rest ih =>
    intro h
    have hc := h c (by simp)
    cases hb : b (chunkRequest model c) with
    | error e => rw [hb] at hc; simp [isOkE] at hc
    | ok s =>
      have hr := ih (fun x hx => h x (by simp [hx]))
      simp [runChunks, summarize_chunk, hb, hr, okD]

theorem runChunks_first_fail (b : Backend) (model : List Char) (c : List Char)
    (post : List (List Char)) (e : List Char) (hc : b (chunkRequest model c) = .error e) :
    ∀ pre : List (List Char), (∀ p ∈ pre, isOkE (b (chunkRequest model p)) = true) →
      runChunks b model (pre ++ c :: post)
        = (.error (("Error summarizing chunk: ").data ++ e),
            (pre ++ [c]).map (chunkRequest model)) := by
  intro pre
  induction pre with
  | nil => intro _; simp [runChunks, summarize_chunk, hc]
  | cons p rest ih =>
    intro h
    have hp := h p (by simp)
    cases hb : b (chunkRequest model p) with
    | error e2 => rw [hb] at hp; simp [isOkE] at hp
    | ok s =>
      have hr := ih (fun x hx => h x (by simp [hx]))
      simp [runChunks, summarize_chunk, hb, hr]

/-- C1: with the default budget, a one-segment chunking makes
`summarize_transcript` issue exactly one direct call with the full-summary
prompt (returning its content on success); an `N > 1` chunking whose segment
calls all succeed issues exactly one per-segment call per segment in index
order, followed by exactly one synthesis call, and nothing else. -/
theorem claim_C1_orchestrator_routing (b : Backend) (model transcript : List Char) :
    ((chunk_text transcript MAX_CHUNK_CHARS).length = 1 →
      (summarize_transcript (some b) model transcript).2
        = [directRequest model transcript] ∧
      (∀ content, b (directRequest model transcript) = .ok content →
        (summarize_transcript (some b) model transcript).1 = (true, content))) ∧
    (1 < (chunk_text transcript MAX_CHUNK_CHARS).length →
      (∀ c ∈ chunk_text transcript MAX_CHUNK_CHARS,
        isOkE (b (chunkRequest model c)) = true) →
      (summarize_transcript (some b) model transcript).2
        = (chunk_text transcript MAX_CHUNK_CHARS).map (chunkRequest model)
          ++ [metaRequest model ((chunk_text transcript MAX_CHUNK_CHARS).map
              fun c => okD (b (chunkRequest model c)))] ∧
      (summarize_transcript (some b) model transcript).1
        = (create_meta_summary b ((chunk_text transcript MAX_CHUNK_CHARS).map
            fun c => okD (b (chunkRequest model c))) model).1) := by
  constructor
  · intro h1
    cases hb : b (directRequest model transcript) <;>
      simp [summarize_transcript, h1, hb]
  · intro hlen hok
    have h1 : ¬((chunk_text transcript MAX_CHUNK_CHARS).length = 1) := by omega
    have hr := runChunks_all_ok b model (chunk_text transcript MAX_CHUNK_CHARS) hok
    have ht := create_meta_summary_trace b
      ((chunk_text transcript MAX_CHUNK_CHARS).map fun c => okD (b (chunkRequest model c)))
      model
    rcases hmeta : create_meta_summary b
      ((chunk_text transcript MAX_CHUNK_CHARS).map fun c => okD (b (chunkRequest model c)))
      model with ⟨r, t2⟩
    rw [hmeta] at ht
    simp only at ht
    simp [summarize_transcript, h1, hr, hmeta, ht]

theorem claim_C1_witness :
    ((chunk_text (("hello world.").data) MAX_CHUNK_CHARS).length = 1 ∧
      (summarize_transcript (some fun _ => .ok (("S").data)) (("m").data)
        (("hello world.").data)).2
        = [directRequest (("m").data) (("hello world.").data)]) ∧
    (1 < (chunk_text bigT MAX_CHUNK_CHARS).length ∧
      (summarize_transcript (some fun _ => .ok (("S").data)) (("m").data) bigT).2
        = (chunk_text bigT MAX_CHUNK_CHARS).map (chunkRequest (("m").data))
          ++ [metaRequest (("m").data) ((chunk_text bigT MAX_CHUNK_CHARS).map
              fun c => okD ((fun _ => .ok (("S").data) : Backend)
                (chunkRequest (("m").data) c)))]) := by
  have h1 : (chunk_text (("hello world.").data) MAX_CHUNK_CHARS).length = 1 := by
    decide
  have hbig : 1 < (chunk_text bigT MAX_CHUNK_CHARS).length := by
    rw [bigT_chunks]; decide
  exact ⟨⟨h1,
    ((claim_C1_orchestrator_routing (fun _ => .ok (("S").data)) (("m").data)
      (("hello world.").data)).1 h1).1⟩,
    ⟨hbig,
    ((claim_C1_orchestrator_routing (fun _ => .ok (("S").data)) (("m").data)
      bigT).2 hbig (fun _ _ => rfl)).1⟩⟩

/-- C2: in a multi-segment run, the first failing per-segment call aborts the
pipeline - the trace stops at the failing segment (no later segment call, no
synthesis call) and the returned error is that segment's error. -/
theorem claim_C2_fail_fast (b : Backend) (model transcript : List Char)
    (pre : List (List Char)) (c : List Char) (post : List (List Char)) (e : List Char)
    (hch : chunk_text transcript MAX_CHUNK_CHARS = pre ++ c :: post)
    (hlen : 1 < (chunk_text transcript MAX_CHUNK_CHARS).length)
    (hpre : ∀ p ∈ pre, isOkE (b (chunkRequest model p)) = true)
    (hc : b (chunkRequest model c) = .error e) :
    (summarize_transcript (some b) model transcript).1
      = (false, ("Error summarizing chunk: ").data ++ e) ∧
    (summarize_transcript (some b) model transcript).2
      = (pre ++ [c]).map (chunkRequest model) := by
  have h1 : ¬((chunk_text transcript MAX_CHUNK_CHARS).length = 1) := by omega
  have hr := runChunks_first_fail b model c post e hc pre hpre
  rw [← hch] at hr
  simp [summarize_transcript, h1, hr]

theorem dropWhile_head_not (p : Char → Bool) (l : List Char) (x : Char)
    (hx : (l.dropWhile p).head? = some x) : p x = false := by
  have h := List.head?_dropWhile_not p l
  rw [hx] at h
  exact h

theorem getLast?_of_suffix {s l : List Char} (h : s <:+ l) (hs : s ≠ []) :
    l.getLast? = s.getLast? := by
  obtain ⟨u, rfl⟩ := h
  rw [List.getLast?_append]
  cases hl : s.getLast? with
  | none => exact absurd (List.getLast?_eq_none_iff.mp hl) hs
  | some c => rfl

theorem pyStrip_eq_self_of (l : List Char)
    (h1 : ∀ x, l.head? = some x → isSpace x = false)
    (h2 : ∀ x, l.getLast? = some x → isSpace x = false) : pyStrip l = l := by
  unfold pyStrip
  have d1 : l.dropWhile isSpace = l := by
    cases l with
    | nil => rfl
    | cons c r => exact List.dropWhile_cons_of_neg (by simp [h1 c rfl])
  rw [d1]
  have d2 : l.reverse.dropWhile isSpace = l.reverse := by
    cases hrev : l.reverse with
    | nil => rfl
    | cons c r =>
      have hc : l.getLast? = some c := by
        rw [List.getLast?_eq_head?_reverse, hrev]
        rfl
      exact List.dropWhile_cons_of_neg (by simp [h2 c hc])
  rw [d2, List.reverse_reverse]

theorem pyStrip_head (l : List Char) (x : Char)
    (hx : (pyStrip l).head? = some x) : isSpace x = false := by
  unfold pyStrip at hx
  rw [List.head?_reverse] at hx
  have hsuf := List.dropWhile_suffix (l := (l.dropWhile isSpace).reverse) isSpace
  have hne : (l.dropWhile isSpace).reverse.dropWhile isSpace ≠ [] := by
    intro hnil
    rw [hnil] at hx
    exact absurd hx (by simp)
  have := getLast?_of_suffix hsuf hne
  rw [← this, List.getLast?_eq_head?_reverse, List.reverse_reverse] at hx
  exact dropWhile_head_not isSpace l x hx

theorem pyStrip_last (l : List Char) (x : Char)
    (hx : (pyStrip l).getLast? = some x) : isSpace x = false := by
  unfold pyStrip at hx
  rw [List.getLast?_eq_head?_reverse, List.reverse_reverse] at hx
  exact dropWhile_head_not isSpace (l.dropWhile isSpace).reverse x hx

theorem pyStrip_idem (l : List Char) : pyStrip (pyStrip l) = pyStrip l :=
  pyStrip_eq_self_of (pyStrip l) (pyStrip_head l) (pyStrip_last l)

theorem pyStrip_append_space (x y : List Char) (hx : pyStrip x = x) (hxne : x ≠ [])
    (hy : pyStrip y = y) (hyne : y ≠ []) :
    pyStrip (x ++ ' ' :: y) = x ++ ' ' :: y := by
  apply pyStrip_eq_self_of
  · intro c hc
    rw [List.head?_append] at hc
    cases hh : x.head? with
    | none => exact absurd (List.head?_eq_none_iff.mp hh) hxne
    | some d =>
      rw [hh] at hc
      have : c = d := by
        have : (some d).or (' ' :: y).head? = some d := rfl
        rw [this] at hc
        exact (Option.some.injEq _ _ ▸ hc).symm
      rw [this]
      exact pyStrip_head x d (by rw [hx]; exact hh)
  · intro c hc
    rw [List.getLast?_append] at hc
    have hyl : (' ' :: y).getLast? = y.getLast? := by
      rw [show (' ' :: y) = [' '] ++ y from rfl, List.getLast?_append]
      cases hl : y.getLast? with
      | none => exact absurd (List.getLast?_eq_none_iff.mp hl) hyne
      | some d => rfl
    rw [hyl] at hc
    cases hl : y.getLast? with
    | none => exact absurd (List.getLast?_eq_none_iff.mp hl) hyne
    | some d =>
      rw [hl] at hc
      have : c = d := by
        have : (some d).or x.getLast? = some d := rfl
        rw [this] at hc
        exact (Option.some.injEq _ _ ▸ hc).symm
      rw [this]
      exact pyStrip_last y d (by rw [hy]; exact hl)

theorem chunkLoop_mem (maxChars : Nat) (S : List (List Char)) :
    ∀ (sents : List (List Char)) (current : List Char),
      (∀ s ∈ sents, s ∈ S) →
      (current = [] ∨ (pyStrip current = current ∧ current ≠ [] ∧
        (current.length ≤ maxChars ∨ current ∈ S.map pyStrip))) →
      ∀ c ∈ chunkLoop maxChars sents current,
        c ≠ [] ∧ pyStrip c = c ∧
          (c.length ≤ maxChars ∨ (c ∈ S.map pyStrip ∧ maxChars < c.length)) := by
  intro sents
  induction sents with
  | nil =>
    intro current _ hinv c hc
    rcases hinv with rfl | ⟨hstr, hne, hlen⟩
    · simp [chunkLoop] at hc
    · rw [chunkLoop_nil_emit maxChars current hne, hstr] at hc
      rw [List.mem_singleton.mp hc]
      refine ⟨hne, hstr, ?_⟩
      rcases le_or_lt current.length maxChars with h | h
      · exact Or.inl h
      · exact Or.inr ⟨hlen.resolve_left (by omega), h⟩
  | cons s rest ih =>
    intro current hS hinv c hc
    have hSrest : ∀ x ∈ rest, x ∈ S := fun x hx => hS x (List.mem_cons_of_mem _ hx)
    have hsmem : pyStrip s ∈ S.map pyStrip :=
      List.mem_map_of_mem pyStrip (hS s (List.mem_cons_self _ _))
    by_cases hs : pyStrip s = []
    · rw [show chunkLoop maxChars (s :: rest) current = chunkLoop maxChars rest current
          by simp only [chunkLoop, if_pos hs]] at hc
      exact ih current hSrest hinv c hc
    · by_cases hover : maxChars < current.length + (pyStrip s).length + 1
      · have hinv2 : pyStrip s = [] ∨ (pyStrip (pyStrip s) = pyStrip s ∧ pyStrip s ≠ [] ∧
            ((pyStrip s).length ≤ maxChars ∨ pyStrip s ∈ S.map pyStrip)) :=
          Or.inr ⟨pyStrip_idem s, hs, Or.inr hsmem⟩
        rcases hinv with rfl | ⟨hstr, hne, hlen⟩
        · rw [chunkLoop_cons_fresh maxChars s rest hs (by simpa using hover)] at hc
          exact ih (pyStrip s) hSrest hinv2 c hc
        · rw [chunkLoop_cons_emit maxChars s rest current hs hover hne, hstr] at hc
          rcases List.mem_cons.mp hc with rfl | hc2
          · refine ⟨hne, hstr, ?_⟩
            rcases le_or_lt c.length maxChars with h | h
            · exact Or.inl h
            · exact Or.inr ⟨hlen.resolve_left (by omega), h⟩
          · exact ih (pyStrip s) hSrest hinv2 c hc2
      · have hnew : chunkLoop maxChars (s :: rest) current
            = chunkLoop maxChars rest
              (if current = [] then pyStrip s else current ++ ' ' :: pyStrip s) := by
          simp only [chunkLoop, if_neg hs, if_neg hover]
        rw [hnew] at hc
        rcases hinv with rfl | ⟨hstr, hne, hlen⟩
        · rw [if_pos rfl] at hc
          exact ih (pyStrip s) hSrest
            (Or.inr ⟨pyStrip_idem s, hs, Or.inr hsmem⟩) c hc
        · rw [if_neg hne] at hc
          refine ih (current ++ ' ' :: pyStrip s) hSrest (Or.inr ⟨?_, by simp, Or.inl ?_⟩)
            c hc
          · exact pyStrip_append_space current (pyStrip s) hstr hne (pyStrip_idem s) hs
          · have : (current ++ ' ' :: pyStrip s).length
                = current.length + (pyStrip s).length + 1 := by
              simp [List.length_append]
              omega
            omega

/-- C3: when the text exceeds the budget, every segment produced by
`chunk_text` is non-empty, carries no leading or trailing whitespace, and
either fits the budget or is a single (stripped) sentence of the input longer
than the budget. -/
theorem claim_C3_segment_bounds (T : List Char) (maxChars : Nat)
    (h : maxChars < T.length) :
    ∀ c ∈ chunk_text T maxChars,
      c ≠ [] ∧ pyStrip c = c ∧
        (c.length ≤ maxChars ∨
          (c ∈ (sentenceSplit T).map pyStrip ∧ maxChars < c.length)) := by
  intro c hc
  rw [chunk_text, if_neg (by omega)] at hc
  exact chunkLoop_mem maxChars (sentenceSplit T) (sentenceSplit T) []
    (fun s hs => hs) (Or.inl rfl) c hc

theorem claim_C3_witness :
    (3 < (("ab. cd").data).length) ∧ (("ab.").data ∈ chunk_text (("ab. cd").data) 3) ∧
      (("ab.").data ≠ [] ∧ pyStrip (("ab.").data) = ("ab.").data ∧
        ((("ab.").data).length ≤ 3 ∨
          ((("ab.").data ∈ (sentenceSplit (("ab. cd").data)).map pyStrip ∧
            3 < (("ab.").data).length)))) :=
  ⟨by decide, by decide,
    claim_C3_segment_bounds (("ab. cd").data) 3 (by decide) (("ab.").data) (by decide)⟩

theorem collapseWs_only_plain (l : List Char) : onlyPlainWs (collapseWs l) = true := by
  induction l with
  | nil => rfl
  | cons c rest ih =>
    by_cases hsp : isSpace c = true
    · by_cases hh : (collapseWs rest).head? = some ' '
      · simpa [collapseWs, hsp, hh] using ih
      · simp only [collapseWs, hsp, if_true, if_neg hh]
        simpa [onlyPlainWs, isSpace] using ih
    · simp only [collapseWs, if_neg hsp]
      simp only [Bool.not_eq_true] at hsp
      simpa [onlyPlainWs, hsp] using ih

theorem noAdjWs_cons_of (c : Char) (X : List Char) (hX : noAdjWs X = true)
    (hhead : ∀ d, X.head? = some d → (isSpace c && isSpace d) = false) :
    noAdjWs (c :: X) = true := by
  cases X with
  | nil => rfl
  | cons d r => simp [noAdjWs, hhead d rfl, hX]

theorem noAdjWs_collapseWs (l : List Char) : noAdjWs (collapseWs l) = true := by
  induction l with
  | nil => rfl
  | cons c rest ih =>
    by_cases hsp : isSpace c = true
    · by_cases hh : (collapseWs rest).head? = some ' '
      · simpa [collapseWs, hsp, hh] using ih
      · simp only [collapseWs, hsp, if_true, if_neg hh]
        refine noAdjWs_cons_of ' ' (collapseWs rest) ih (fun d hd => ?_)
        have hdm : d ∈ collapseWs rest := List.mem_of_mem_head? (hd ▸ rfl)
        have honly := List.all_eq_true.mp (collapseWs_only_plain rest) d hdm
        by_cases hds : isSpace d = true
        · have hd' : d = ' ' := by
            rcases Bool.or_eq_true_iff.mp honly with h | h
            · rw [hds] at h; exact absurd h (by decide)
            · exact of_decide_eq_true h
          rw [hd'] at hd
          exact absurd hd hh
        · simp only [Bool.not_eq_true] at hds
          simp [hds]
    · simp only [collapseWs, if_neg hsp]
      simp only [Bool.not_eq_true] at hsp
      exact noAdjWs_cons_of c (collapseWs rest) ih (fun d _ => by simp [hsp])

theorem pyStrip_subset (l : List Char) : pyStrip l ⊆ l := by
  intro x hx
  unfold pyStrip at hx
  rw [List.mem_reverse] at hx
  have hx2 := (List.dropWhile_suffix isSpace).sublist.subset hx
  rw [List.mem_reverse] at hx2
  exact (List.dropWhile_suffix isSpace).sublist.subset hx2

theorem noAdjWs_iff_chain (l : List Char) :
    noAdjWs l = true ↔ l.Chain' (fun a b => (isSpace a && isSpace b) = false) := by
  induction l with
  | nil => simp [noAdjWs]
  | cons c rest ih =>
    cases rest with
    | nil => simp [noAdjWs]
    | cons d r =>
      rw [List.chain'_cons, noAdjWs]
      rw [Bool.and_eq_true, Bool.not_eq_true']
      exact and_congr Iff.rfl ih

theorem noAdjWs_pyStrip (l : List Char) (h : noAdjWs l = true) :
    noAdjWs (pyStrip l) = true := by
  rw [noAdjWs_iff_chain] at h ⊢
  have hsym : ∀ (X : List Char),
      X.Chain' (fun a b => (isSpace a && isSpace b) = false) →
      X.reverse.Chain' (fun a b => (isSpace a && isSpace b) = false) := by
    intro X hX
    rw [List.chain'_reverse]
    exact hX.imp (fun a b hab => by
      show (isSpace b && isSpace a) = false
      rw [Bool.and_comm]
      exact hab)
  unfold pyStrip
  exact hsym _ (((hsym _ (h.suffix (List.dropWhile_suffix isSpace))).suffix
    (List.dropWhile_suffix isSpace)))

/-- C8: the transcript text produced by a successful fetch is whitespace
normalized by the fetch itself - every whitespace character is a plain space,
no two whitespace characters are adjacent (runs are collapsed), and the text
carries no leading or trailing whitespace. -/
theorem claim_C8_fetch_normalized (snippets : List (List Char)) :
    onlyPlainWs (fetched_text snippets) = true ∧
    noAdjWs (fetched_text snippets) = true ∧
    pyStrip (fetched_text snippets) = fetched_text snippets := by
  refine ⟨?_, ?_, pyStrip_idem _⟩
  · rw [fetched_text, onlyPlainWs, List.all_eq_true]
    intro x hx
    exact List.all_eq_true.mp (collapseWs_only_plain (pyJoin [' '] snippets)) x
      (pyStrip_subset _ hx)
  · exact noAdjWs_pyStrip _ (noAdjWs_collapseWs (pyJoin [' '] snippets))

theorem pyIn_iff_exists (sub : List Char) : ∀ l, pyIn sub l = true ↔ ∃ x y, l = x ++ sub ++ y := by
  intro l
  induction l with
  | nil =>
    simp only [pyIn, decide_eq_true_eq]
    constructor
    · intro h
      exact ⟨[], [], by simp [h]⟩
    · rintro ⟨x, y, hxy⟩
      rcases List.append_eq_nil.mp (List.append_eq_nil.mp hxy.symm).1 with ⟨-, h2⟩
      exact h2
  | cons c rest ih =>
    simp only [pyIn, Bool.or_eq_true]
    constructor
    · rintro (hp | hin)
      · obtain ⟨t, ht⟩ := List.isPrefixOf_iff_prefix.mp hp
        exact ⟨[], t, by simp [← ht]⟩
      · obtain ⟨x, y, hxy⟩ := ih.mp hin
        exact ⟨c :: x, y, by simp [hxy]⟩
    · rintro ⟨x, y, hxy⟩
      cases x with
      | nil =>
        left
        rw [List.isPrefixOf_iff_prefix]
        exact ⟨y, by rw [List.nil_append] at hxy; exact hxy.symm⟩
      | cons x0 xs =>
        right
        apply ih.mpr
        rw [List.cons_append, List.cons_append] at hxy
        exact ⟨xs, y, (List.cons.injEq _ _ _ _ ▸ hxy).2⟩

theorem pyIn_reverse (sub l : List Char) :
    pyIn sub.reverse l.reverse = pyIn sub l := by
  rw [Bool.eq_iff_iff, pyIn_iff_exists, pyIn_iff_exists]
  constructor
  · rintro ⟨x, y, hxy⟩
    refine ⟨y.reverse, x.reverse, ?_⟩
    have := congrArg List.reverse hxy
    rw [List.reverse_reverse, List.reverse_append, List.reverse_append,
      List.reverse_reverse] at this
    rw [this, List.append_assoc]
  · rintro ⟨x, y, hxy⟩
    refine ⟨y.reverse, x.reverse, ?_⟩
    rw [hxy]
    rw [List.reverse_append, List.reverse_append, List.append_assoc]

theorem pyIn_cons_space (sub : List Char) (hne : sub ≠ [])
    (hns : ∀ c ∈ sub, isSpace c = false) (c : Char) (hc : isSpace c = true)
    (l : List Char) : pyIn sub (c :: l) = pyIn sub l := by
  rw [pyIn]
  have hp : sub.isPrefixOf (c :: l) = false := by
    cases sub with
    | nil => exact absurd rfl hne
    | cons s0 ss =>
      have h0 : isSpace s0 = false := hns s0 (List.mem_cons_self _ _)
      have hne0 : ¬(s0 = c) := fun he => by rw [he, hc] at h0; exact absurd h0 (by decide)
      simp [List.isPrefixOf, hne0]
  rw [hp, Bool.false_or]

theorem pyIn_append_space_front (sub : List Char) (hne : sub ≠ [])
    (hns : ∀ c ∈ sub, isSpace c = false) (a : List Char)
    (ha : ∀ c ∈ a, isSpace c = true) (X : List Char) :
    pyIn sub (a ++ X) = pyIn sub X := by
  induction a with
  | nil => rfl
  | cons c a' ih =>
    rw [List.cons_append,
      pyIn_cons_space sub hne hns c (ha c (List.mem_cons_self _ _)),
      ih (fun d hd => ha d (List.mem_cons_of_mem _ hd))]

theorem pyIn_append_space_back (sub : List Char) (hne : sub ≠ [])
    (hns : ∀ c ∈ sub, isSpace c = false) (b : List Char)
    (hb : ∀ c ∈ b, isSpace c = true) (X : List Char) :
    pyIn sub (X ++ b) = pyIn sub X := by
  rw [← pyIn_reverse sub (X ++ b), List.reverse_append,
    pyIn_append_space_front sub.reverse
      (fun h => hne (by simpa using congrArg List.reverse h))
      (fun c hc => hns c (List.mem_reverse.mp hc))
      b.reverse (fun c hc => hb c (List.mem_reverse.mp hc)),
    pyIn_reverse]

theorem pyIn_all_space (sub : List Char) (hne : sub ≠ [])
    (hns : ∀ c ∈ sub, isSpace c = false) (l : List Char)
    (hl : ∀ c ∈ l, isSpace c = true) : pyIn sub l = false := by
  induction l with
  | nil => simp [pyIn, hne]
  | cons c rest ih =>
    rw [pyIn_cons_space sub hne hns c (hl c (List.mem_cons_self _ _))]
    exact ih (fun d hd => hl d (List.mem_cons_of_mem _ hd))

theorem toLower_space (c : Char) (h : isSpace c = true) : Char.toLower c = c := by
  rw [isSpace] at h
  simp only [Bool.or_eq_true, decide_eq_true_eq] at h
  rcases h with ((((rfl | rfl) | rfl) | rfl) | rfl) | rfl <;> decide

theorem pyLower_space_fix (a : List Char) (ha : ∀ c ∈ a, isSpace c = true) :
    pyLower a = a := by
  unfold pyLower
  induction a with
  | nil => rfl
  | cons c a' ih =>
    rw [List.map_cons, toLower_space c (ha c (List.mem_cons_self _ _)),
      ih (fun d hd => ha d (List.mem_cons_of_mem _ hd))]

theorem pyStrip_decomp (l : List Char) :
    ∃ a b, l = a ++ pyStrip l ++ b ∧ (∀ c ∈ a, isSpace c = true) ∧
      (∀ c ∈ b, isSpace c = true) := by
  refine ⟨l.takeWhile isSpace,
    ((l.dropWhile isSpace).reverse.takeWhile isSpace).reverse, ?_,
    fun c hc => List.mem_takeWhile_imp hc,
    fun c hc => List.mem_takeWhile_imp (List.mem_reverse.mp hc)⟩
  have hdrop : l.dropWhile isSpace
      = pyStrip l ++ ((l.dropWhile isSpace).reverse.takeWhile isSpace).reverse := by
    have h2 := congrArg List.reverse
      (List.takeWhile_append_dropWhile isSpace (l.dropWhile isSpace).reverse)
    rw [List.reverse_append, List.reverse_reverse] at h2
    exact h2.symm
  conv_lhs => rw [← List.takeWhile_append_dropWhile isSpace l, hdrop]
  rw [List.append_assoc]

theorem pyIn_lower_strip (sub : List Char) (hne : sub ≠ [])
    (hns : ∀ c ∈ sub, isSpace c = false) (url : List Char) :
    pyIn sub (pyLower (pyStrip url)) = pyIn sub (pyLower url) := by
  obtain ⟨a, b, hdecomp, ha, hb⟩ := pyStrip_decomp url
  conv_rhs => rw [hdecomp]
  rw [show pyLower ((a ++ pyStrip url) ++ b)
      = (pyLower a ++ pyLower (pyStrip url)) ++ pyLower b by
    simp [pyLower, List.map_append]]
  rw [pyLower_space_fix a ha, pyLower_space_fix b hb]
  rw [pyIn_append_space_back sub hne hns b hb,
    pyIn_append_space_front sub hne hns a ha]

theorem pyStrip_nil_all_space (l : List Char) (h : pyStrip l = []) :
    ∀ c ∈ l, isSpace c = true := by
  obtain ⟨a, b, hdecomp, ha, hb⟩ := pyStrip_decomp l
  rw [h, List.append_nil] at hdecomp
  intro c hc
  rw [hdecomp, List.mem_append] at hc
  rcases hc with hc | hc
  · exact ha c hc
  · exact hb c hc

theorem extract_strip (url : List Char) :
    extract_video_id (pyStrip url) = extract_video_id url := by
  by_cases hu : url = []
  · subst hu; rfl
  · by_cases hs : pyStrip url = []
    · rw [extract_video_id, if_pos hs, extract_video_id, if_neg hu, hs]
      rfl
    · rw [extract_video_id, if_neg hs, extract_video_id, if_neg hu, pyStrip_idem]

theorem grab11_spec (l v : List Char) (h : grab11 l = some v) :
    v.length = 11 ∧ v.all isIdChar = true := by
  simp only [grab11] at h
  split at h
  · next hc => exact Option.some.inj h ▸ hc
  · exact absurd h (by simp)

theorem searchLitId_spec (lit : List Char) :
    ∀ s v, searchLitId lit s = some v → v.length = 11 ∧ v.all isIdChar = true := by
  intro s
  induction s with
  | nil => intro v h; exact absurd h (by simp [searchLitId])
  | cons c rest ih =>
    intro v h
    simp only [searchLitId] at h
    split at h
    · split at h
      · next hg => exact grab11_spec _ _ (h ▸ hg)
      · exact ih v h
    · exact ih v h

theorem ampScan_spec :
    ∀ (s : List Char) (best : Option (List Char)) (v : List Char),
      (∀ w, best = some w → w.length = 11 ∧ w.all isIdChar = true) →
      ampScan s best = some v → v.length = 11 ∧ v.all isIdChar = true := by
  intro s
  induction s with
  | nil => intro best v hbest h; exact hbest v h
  | cons c rest ih =>
    intro best v hbest h
    simp only [ampScan] at h
    have hbest2 : ∀ w,
        (if ("&v=").data.isPrefixOf (c :: rest) then
          match grab11 ((c :: rest).drop 3) with
          | some u => some u
          | none => best
        else best) = some w → w.length = 11 ∧ w.all isIdChar = true := by
      intro w hw
      split at hw
      · split at hw
        · next hg => exact grab11_spec _ _ (hw ▸ hg)
        · exact hbest w hw
      · exact hbest w hw
    split at h
    · exact hbest2 v h
    · exact ih _ v hbest2 h

theorem altTwo_spec (s : List Char) (v : List Char) (h : altTwo s = some v) :
    v.length = 11 ∧ v.all isIdChar = true := by
  cases s with
  | nil => exact absurd h (by simp [altTwo])
  | cons c rest =>
    simp only [altTwo] at h
    split at h
    · exact absurd h (by simp)
    · exact ampScan_spec rest none v (fun w hw => absurd hw (by simp)) h

theorem searchStandard_spec :
    ∀ s v, searchStandard s = some v → v.length = 11 ∧ v.all isIdChar = true := by
  intro s
  induction s with
  | nil => intro v h; exact absurd h (by simp [searchStandard])
  | cons c rest ih =>
    intro v h
    simp only [searchStandard] at h
    split at h
    · next u hu =>
      -- the leftmost position matched: analyse how `here` produced `some u`
      split at hu
      · split at hu
        · split at hu
          · next hg => exact grab11_spec _ _ ((Option.some.inj h ▸ hu) ▸ hg)
          · exact altTwo_spec _ _ (Option.some.inj h ▸ hu)
        · exact altTwo_spec _ _ (Option.some.inj h ▸ hu)
      · exact absurd hu (by simp)
    · exact ih v h

theorem extract_video_id_spec (url : List Char) :
    ∀ v, extract_video_id url = some v → v.length = 11 ∧ v.all isIdChar = true := by
  intro v h
  rw [extract_video_id] at h
  split at h
  · exact absurd h (by simp)
  · simp only [] at h
    split at h
    · next hs => exact searchStandard_spec _ _ (h ▸ hs)
    · split at h
      · next hs => exact searchLitId_spec _ _ _ (h ▸ hs)
      · split at h
        · next hs => exact searchLitId_spec _ _ _ (h ▸ hs)
        · exact searchLitId_spec _ _ _ h

/-- C9: `extract_video_id` returns `none` or an 11-character id over
`[a-zA-Z0-9_-]`; `validate_youtube_url` succeeds exactly when the input
contains `youtube.com` or `youtu.be` case-insensitively and an id can be
extracted, and returns `(False, message, None)` otherwise, including for
empty or whitespace-only input. -/
theorem claim_C9_url_validation (url : List Char) :
    (∀ v, extract_video_id url = some v → v.length = 11 ∧ v.all isIdChar = true) ∧
    ((validate_youtube_url url).1 = true ↔
      (pyIn (("youtube.com").data) (pyLower url)
        || pyIn (("youtu.be").data) (pyLower url)) = true ∧
      (extract_video_id url).isSome = true) ∧
    ((validate_youtube_url url).1 = true →
      (validate_youtube_url url).2.2 = extract_video_id url) ∧
    ((validate_youtube_url url).1 = false →
      (validate_youtube_url url).2.2 = none) := by
  have hd1ne : (("youtube.com").data) ≠ [] := by decide
  have hd1ns : ∀ c ∈ (("youtube.com").data), isSpace c = false := by decide
  have hd2ne : (("youtu.be").data) ≠ [] := by decide
  have hd2ns : ∀ c ∈ (("youtu.be").data), isSpace c = false := by decide
  refine ⟨extract_video_id_spec url, ?_⟩
  by_cases h0 : url = [] ∨ pyStrip url = []
  · have hdom : (pyIn (("youtube.com").data) (pyLower url)
        || pyIn (("youtu.be").data) (pyLower url)) = false := by
      rcases h0 with rfl | hs
      · rfl
      · have hall := pyStrip_nil_all_space url hs
        have hlow : pyLower url = url := pyLower_space_fix url hall
        rw [hlow, pyIn_all_space _ hd1ne hd1ns url hall,
          pyIn_all_space _ hd2ne hd2ns url hall]
        rfl
    rw [validate_youtube_url, if_pos h0]
    refine ⟨⟨fun h => absurd h (by simp), fun h => absurd h.1 (by simp [hdom])⟩,
      fun h => absurd h (by simp), fun _ => rfl⟩
  · push_neg at h0
    have hdom1 := pyIn_lower_strip (("youtube.com").data) hd1ne hd1ns url
    have hdom2 := pyIn_lower_strip (("youtu.be").data) hd2ne hd2ns url
    rw [validate_youtube_url, if_neg (by
      rintro (h | h)
      · exact h0.1 h
      · exact h0.2 h)]
    by_cases hdom : (pyIn (("youtube.com").data) (pyLower (pyStrip url))
        || pyIn (("youtu.be").data) (pyLower (pyStrip url))) = true
    · rw [if_neg (by simp [hdom])]
      cases hext : extract_video_id (pyStrip url) with
      | none =>
        have hext' : extract_video_id url = none := by rw [← extract_strip, hext]
        exact ⟨⟨fun h => absurd h (by simp), fun h => by
            rw [hext'] at h
            exact absurd h.2 (by simp)⟩,
          fun h => absurd h (by simp), fun _ => rfl⟩
      | some vid =>
        have hext' : extract_video_id url = some vid := by rw [← extract_strip, hext]
        refine ⟨⟨fun _ => ⟨?_, by simp [hext']⟩, fun _ => rfl⟩,
          fun _ => by simp [hext'], fun h => absurd h (by simp)⟩
        rw [← hdom1, ← hdom2]
        exact hdom
    · rw [if_pos (by simp [Bool.not_eq_true] at hdom ⊢; simp [hdom])]
      have hdom' : (pyIn (("youtube.com").data) (pyLower url)
          || pyIn (("youtu.be").data) (pyLower url)) = false := by
        rw [← hdom1, ← hdom2]
        exact Bool.not_eq_true _ ▸ (by simpa using hdom)
      exact ⟨⟨fun h => absurd h (by simp), fun h => absurd h.1 (by simp [hdom'])⟩,
        fun h => absurd h (by simp), fun _ => rfl⟩

theorem claim_C9_witness :
    (validate_youtube_url (("https://youtu.be/dQw4w9WgXcQ").data)).1 = true ∧
    (validate_youtube_url (("https://youtu.be/dQw4w9WgXcQ").data)).2.2
      = extract_video_id (("https://youtu.be/dQw4w9WgXcQ").data) ∧
    ∀ v, extract_video_id (("https://youtu.be/dQw4w9WgXcQ").data) = some v →
      v.length = 11 ∧ v.all isIdChar = true := by
  have hv : (validate_youtube_url (("https://youtu.be/dQw4w9WgXcQ").data)).1 = true := by
    decide
  exact ⟨hv,
    (claim_C9_url_validation (("https://youtu.be/dQw4w9WgXcQ").data)).2.2.1 hv,
    (claim_C9_url_validation (("https://youtu.be/dQw4w9WgXcQ").data)).1⟩

theorem bigA_head : bigA.head? = some 'a' := by
  rw [bigA, List.head?_append, List.head?_replicate,
    if_neg (by decide : ¬((11999 : Nat) = 0))]
  rfl

theorem bigB_head : bigB.head? = some 'b' := by
  rw [bigB, List.head?_replicate, if_neg (by decide : ¬((100 : Nat) = 0))]

theorem claim_C2_witness :
    ((fun req => if req.user.head? = some 'b' then Except.error (("boom").data)
        else Except.ok (("S").data) : Backend)
      (chunkRequest (("m").data) bigB) = .error (("boom").data)) ∧
    (summarize_transcript
        (some (fun req => if req.user.head? = some 'b' then Except.error (("boom").data)
          else Except.ok (("S").data)))
        (("m").data) bigT).1
      = (false, ("Error summarizing chunk: ").data ++ ("boom").data) := by
  have hc : (fun req => if req.user.head? = some 'b' then Except.error (("boom").data)
      else Except.ok (("S").data) : Backend)
      (chunkRequest (("m").data) bigB) = .error (("boom").data) := by
    show (if bigB.head? = some 'b' then Except.error (("boom").data)
      else Except.ok (("S").data)) = _
    rw [bigB_head, if_pos rfl]
  have hpre : ∀ p ∈ [bigA],
      isOkE ((fun req => if req.user.head? = some 'b' then Except.error (("boom").data)
        else Except.ok (("S").data) : Backend) (chunkRequest (("m").data) p)) = true := by
    intro p hp
    rw [List.mem_singleton.mp hp]
    show isOkE (if bigA.head? = some 'b' then Except.error (("boom").data)
      else Except.ok (("S").data)) = true
    rw [bigA_head, if_neg (by decide : ¬(some 'a' = some 'b'))]
    rfl
  have hch : chunk_text bigT MAX_CHUNK_CHARS = [bigA] ++ bigB :: [] := by
    rw [bigT_chunks]; rfl
  have hlen : 1 < (chunk_text bigT MAX_CHUNK_CHARS).length := by
    rw [bigT_chunks]; decide
  exact ⟨hc,
    (claim_C2_fail_fast _ (("m").data) bigT [bigA] bigB [] (("boom").data)
      hch hlen hpre hc).1⟩

/-- C6 (amended): the priority classification credential > rate-limit >
context-length > other applies to failures of the direct single-segment call
only; failures of per-segment and synthesis calls are returned unclassified,
as generic errors carrying the raw backend message behind a fixed prefix. -/
theorem claim_C6_error_classification (b : Backend) (model transcript e : List Char) :
    ((chunk_text transcript MAX_CHUNK_CHARS).length = 1 →
      b (directRequest model transcript) = .error e →
      (summarize_transcript (some b) model transcript).1
        = (false, classifySingleError e) ∧
      (pyIn (("api_key").data) (pyLower e) = true →
        classifySingleError e
          = ("Invalid OpenAI API key. Please check your configuration.").data) ∧
      (pyIn (("api_key").data) (pyLower e) = false →
        pyIn (("rate_limit").data) (pyLower e) = true →
        classifySingleError e
          = ("Rate limit exceeded. Please wait a moment and try again.").data) ∧
      (pyIn (("api_key").data) (pyLower e) = false →
        pyIn (("rate_limit").data) (pyLower e) = false →
        (pyIn (("context_length").data) (pyLower e)
          || pyIn (("maximum context").data) (pyLower e)) = true →
        classifySingleError e
          = ("Transcript too long for the model. Try a shorter video.").data) ∧
      (pyIn (("api_key").data) (pyLower e) = false →
        pyIn (("rate_limit").data) (pyLower e) = false →
        (pyIn (("context_length").data) (pyLower e)
          || pyIn (("maximum context").data) (pyLower e)) = false →
        classifySingleError e = ("Error calling LLM API: ").data ++ e)) ∧
    (∀ pre c post, chunk_text transcript MAX_CHUNK_CHARS = pre ++ c :: post →
      1 < (chunk_text transcript MAX_CHUNK_CHARS).length →
      (∀ p ∈ pre, isOkE (b (chunkRequest model p)) = true) →
      b (chunkRequest model c) = .error e →
      (summarize_transcript (some b) model transcript).1
        = (false, ("Error summarizing chunk: ").data ++ e)) ∧
    (1 < (chunk_text transcript MAX_CHUNK_CHARS).length →
      (∀ c ∈ chunk_text transcript MAX_CHUNK_CHARS,
        isOkE (b (chunkRequest model c)) = true) →
      b (metaRequest model ((chunk_text transcript MAX_CHUNK_CHARS).map
          fun c => okD (b (chunkRequest model c)))) = .error e →
      (summarize_transcript (some b) model transcript).1
        = (false, ("Error creating meta-summary: ").data ++ e)) := by
  refine ⟨fun h1 hb => ⟨?_, fun ha => ?_, fun ha hr => ?_, fun ha hr hc => ?_,
      fun ha hr hc => ?_⟩, fun pre c post hch hlen hpre hc => ?_, fun hlen hok hmb => ?_⟩
  · simp [summarize_transcript, h1, hb]
  · simp [classifySingleError, ha]
  · simp [classifySingleError, ha, hr]
  · simp [classifySingleError, ha, hr, hc]
  · simp only [Bool.or_eq_false_iff] at hc
    simp [classifySingleError, ha, hr, hc.1, hc.2]
  · have h1 : ¬((chunk_text transcript MAX_CHUNK_CHARS).length = 1) := by omega
    have hr := runChunks_first_fail b model c post e hc pre hpre
    rw [← hch] at hr
    simp [summarize_transcript, h1, hr]
  · have h1 : ¬((chunk_text transcript MAX_CHUNK_CHARS).length = 1) := by omega
    have hr := runChunks_all_ok b model (chunk_text transcript MAX_CHUNK_CHARS) hok
    simp [summarize_transcript, h1, hr, create_meta_summary, hmb]

theorem claim_C6_counterexample :
    (summarize_transcript (some (fun _ => .error (("bad api_key").data)))
        (("m").data) bigT).1
      = (false, ("Error summarizing chunk: ").data ++ ("bad api_key").data) ∧
    classifySingleError (("bad api_key").data)
      = ("Invalid OpenAI API key. Please check your configuration.").data ∧
    ("Error summarizing chunk: ").data ++ ("bad api_key").data
      ≠ ("Invalid OpenAI API key. Please check your configuration.").data := by
  refine ⟨?_, by decide, by decide⟩
  have h1 : ¬((chunk_text bigT MAX_CHUNK_CHARS).length = 1) := by
    rw [bigT_chunks]; decide
  have hr := runChunks_first_fail (fun _ => .error (("bad api_key").data))
    (("m").data) bigA [bigB] (("bad api_key").data) rfl []
    (fun p hp => absurd hp (List.not_mem_nil p))
  rw [List.nil_append] at hr
  rw [← bigT_chunks] at hr
  simp [summarize_transcript, h1, hr]

theorem claim_C6_witness :
    ((chunk_text (("hello world.").data) MAX_CHUNK_CHARS).length = 1) ∧
    (summarize_transcript (some (fun _ => .error (("rate_limit hit").data)))
        (("m").data) (("hello world.").data)).1
      = (false, classifySingleError (("rate_limit hit").data)) ∧
    classifySingleError (("rate_limit hit").data)
      = ("Rate limit exceeded. Please wait a moment and try again.").data := by
  have h1 : (chunk_text (("hello world.").data) MAX_CHUNK_CHARS).length = 1 := by
    decide
  have hres := (claim_C6_error_classification (fun _ => .error (("rate_limit hit").data))
    (("m").data) (("hello world.").data) (("rate_limit hit").data)).1 h1 rfl
  exact ⟨h1, hres.1, hres.2.2.1 (by decide) (by decide)⟩

theorem claim_C4_counterexample :
    (∀ c ∈ (("a|b").data), isSpace c = false) ∧
    pyJoin [' '] (chunk_text (("a|b").data) 1) ≠ ("a|b").data ∧
    sentencesOf (pyJoin [' '] (chunk_text (("a|b").data) 1))
      ≠ sentencesOf (("a|b").data) := by
  refine ⟨by decide, by decide, by decide⟩

theorem fusedSplit_ne_nil (l : List Char) : fusedSplit l ≠ [] := by
  match l with
  | [] => simp [fusedSplit]
  | [c] => simp [fusedSplit]
  | c1 :: c2 :: rest =>
    simp only [fusedSplit]
    split
    · simp
    · cases fusedSplit (c2 :: rest) <;> simp

theorem fusedSplit_first_head (l : List Char) (hne : l ≠ []) :
    ∃ g gs, fusedSplit l = g :: gs ∧ g.head? = l.head? := by
  match l with
  | [c] => exact ⟨[c], [], rfl, rfl⟩
  | c1 :: c2 :: rest =>
    simp only [fusedSplit]
    split
    · exact ⟨[c1], fusedSplit rest, rfl, rfl⟩
    · cases hg : fusedSplit (c2 :: rest) with
      | nil => exact absurd hg (fusedSplit_ne_nil _)
      | cons g gs => exact ⟨c1 :: g, gs, rfl, rfl⟩

theorem pySplit_cons_sep (sep : Char) (v : List Char) :
    pySplit sep (sep :: v) = [] :: pySplit sep v := by
  simp only [pySplit]
  cases hv : pySplit sep v with
  | nil => exact absurd hv (pySplit_ne_nil sep v)
  | cons g gs => simp

theorem pySplit_cons_ne (sep c : Char) (v : List Char) (h : ¬(c = sep))
    (g : List Char) (gs : List (List Char)) (hv : pySplit sep v = g :: gs) :
    pySplit sep (c :: v) = (c :: g) :: gs := by
  simp only [pySplit, hv, if_neg h]

theorem replacePair_cons_cons_ne (p1 p2 r1 r2 c1 c2 : Char) (rest : List Char)
    (h : ¬(c1 = p1 ∧ c2 = p2)) :
    replacePair p1 p2 r1 r2 (c1 :: c2 :: rest)
      = c1 :: replacePair p1 p2 r1 r2 (c2 :: rest) := by
  simp only [replacePair, if_neg h]

theorem replacePair_cons_head (p1 p2 r1 r2 c : Char) (l : List Char)
    (h : ¬(c = p1 ∧ l.head? = some p2)) :
    replacePair p1 p2 r1 r2 (c :: l) = c :: replacePair p1 p2 r1 r2 l := by
  cases l with
  | nil => rfl
  | cons a as =>
    exact replacePair_cons_cons_ne p1 p2 r1 r2 c a as (by simpa using h)

theorem replacePair_head (p1 p2 r2 : Char) (l : List Char) :
    (replacePair p1 p2 p1 r2 l).head? = l.head? := by
  match l with
  | [] => rfl
  | [c] => rfl
  | c1 :: c2 :: rest =>
    simp only [replacePair]
    split
    · next h => rw [h.1]; rfl
    · rfl

theorem sentenceSplit_eq_fused_aux :
    ∀ (n : Nat) (l : List Char), l.length ≤ n → '|' ∉ l →
      sentenceSplit l = fusedSplit l := by
  intro n
  induction n with
  | zero =>
    intro l hl _
    rw [List.eq_nil_of_length_eq_zero (Nat.le_zero.mp hl)]
    rfl
  | succ n ih =>
    intro l hl hbar
    match l with
    | [] => rfl
    | [c] =>
      have hc : ¬(c = '|') := fun h => hbar (by rw [h]; exact List.mem_cons_self _ _)
      show pySplit '|' [c] = [[c]]
      simp [pySplit, hc]
    | c1 :: c2 :: rest =>
      have hbar1 : ¬(c1 = '|') := fun h => hbar (h ▸ List.mem_cons_self c1 _)
      have hbar2 : '|' ∉ (c2 :: rest) := fun hm => hbar (List.mem_cons_of_mem _ hm)
      have hbarr : '|' ∉ rest := fun hm => hbar2 (List.mem_cons_of_mem _ hm)
      have hlr : rest.length ≤ n := by
        simp only [List.length_cons] at hl
        omega
      have hlr2 : (c2 :: rest).length ≤ n := by
        simp only [List.length_cons] at hl ⊢
        omega
      unfold sentenceSplit
      by_cases hcond : isPunct c1 = true ∧ c2 = ' '
      · obtain ⟨hp, rfl⟩ := hcond
        have ihr := ih rest hlr hbarr
        unfold sentenceSplit at ihr
        rw [isPunct] at hp
        simp only [Bool.or_eq_true, decide_eq_true_eq] at hp
        rcases hp with (rfl | rfl) | rfl
        · rw [replacePair_cons_match '?' ' ' '?' '|' rest,
            replacePair_cons_head '!' ' ' '!' '|' '?' _ (fun h => absurd h.1 (by decide)),
            replacePair_cons_head '!' ' ' '!' '|' '|' _ (fun h => absurd h.1 (by decide)),
            replacePair_cons_head '.' ' ' '.' '|' '?' _ (fun h => absurd h.1 (by decide)),
            replacePair_cons_head '.' ' ' '.' '|' '|' _ (fun h => absurd h.1 (by decide)),
            pySplit_cons_ne '|' '?' _ (by decide) [] _ (pySplit_cons_sep '|' _), ihr]
          simp [fusedSplit, isPunct]
        · rw [replacePair_cons_cons_ne '?' ' ' '?' '|' '!' ' ' rest
              (fun h => absurd h.1 (by decide)),
            replacePair_cons_head '?' ' ' '?' '|' ' ' rest (fun h => absurd h.1 (by decide)),
            replacePair_cons_match '!' ' ' '!' '|' _,
            replacePair_cons_head '.' ' ' '.' '|' '!' _ (fun h => absurd h.1 (by decide)),
            replacePair_cons_head '.' ' ' '.' '|' '|' _ (fun h => absurd h.1 (by decide)),
            pySplit_cons_ne '|' '!' _ (by decide) [] _ (pySplit_cons_sep '|' _), ihr]
          simp [fusedSplit, isPunct]
        · rw [replacePair_cons_cons_ne '?' ' ' '?' '|' '.' ' ' rest
              (fun h => absurd h.1 (by decide)),
            replacePair_cons_head '?' ' ' '?' '|' ' ' rest (fun h => absurd h.1 (by decide)),
            replacePair_cons_cons_ne '!' ' ' '!' '|' '.' ' ' _
              (fun h => absurd h.1 (by decide)),
            replacePair_cons_head '!' ' ' '!' '|' ' ' _ (fun h => absurd h.1 (by decide)),
            replacePair_cons_match '.' ' ' '.' '|' _,
            pySplit_cons_ne '|' '.' _ (by decide) [] _ (pySplit_cons_sep '|' _), ihr]
          simp [fusedSplit, isPunct]
      · have hq : ¬(c1 = '?' ∧ c2 = ' ') := fun h =>
          hcond ⟨by rw [h.1]; decide, h.2⟩
        have hx : ¬(c1 = '!' ∧ c2 = ' ') := fun h =>
          hcond ⟨by rw [h.1]; decide, h.2⟩
        have hdd : ¬(c1 = '.' ∧ c2 = ' ') := fun h =>
          hcond ⟨by rw [h.1]; decide, h.2⟩
        have hh1 : (replacePair '?' ' ' '?' '|' (c2 :: rest)).head? = some c2 := by
          rw [replacePair_head]
          rfl
        have hh2 : (replacePair '!' ' ' '!' '|'
            (replacePair '?' ' ' '?' '|' (c2 :: rest))).head? = some c2 := by
          rw [replacePair_head, replacePair_head]
          rfl
        have ihr := ih (c2 :: rest) hlr2 hbar2
        unfold sentenceSplit at ihr
        obtain ⟨g, gs, hg, -⟩ := fusedSplit_first_head (c2 :: rest) (by simp)
        rw [replacePair_cons_cons_ne '?' ' ' '?' '|' c1 c2 rest hq,
          replacePair_cons_head '!' ' ' '!' '|' c1 _ (fun h => by
            rw [hh1] at h
            exact hx ⟨h.1, Option.some.inj h.2⟩),
          replacePair_cons_head '.' ' ' '.' '|' c1 _ (fun h => by
            rw [hh2] at h
            exact hdd ⟨h.1, Option.some.inj h.2⟩),
          pySplit_cons_ne '|' c1 _ hbar1 g gs (by rw [ihr, hg])]
        simp only [fusedSplit, if_neg hcond, hg]

theorem sentenceSplit_eq_fused (l : List Char) (hbar : '|' ∉ l) :
    sentenceSplit l = fusedSplit l :=
  sentenceSplit_eq_fused_aux l.length l (Nat.le_refl _) hbar

theorem noPS_tail (c : Char) (l : List Char) (h : noPS (c :: l) = true) :
    noPS l = true := by
  cases l with
  | nil => rfl
  | cons d r =>
    rw [noPS, Bool.and_eq_true] at h
    exact h.2

theorem noPS_cons_of (c : Char) (l : List Char) (hl : noPS l = true)
    (hhead : ∀ d, l.head? = some d → (isPunct c && decide (d = ' ')) = false) :
    noPS (c :: l) = true := by
  cases l with
  | nil => rfl
  | cons d r => simp [noPS, hhead d rfl, hl]

theorem noPS_iff_chain (l : List Char) :
    noPS l = true ↔ l.Chain' (fun a b => (isPunct a && decide (b = ' ')) = false) := by
  induction l with
  | nil => simp [noPS]
  | cons c rest ih =>
    cases rest with
    | nil => simp [noPS]
    | cons d r =>
      rw [List.chain'_cons, noPS]
      rw [Bool.and_eq_true, Bool.not_eq_true']
      exact and_congr Iff.rfl ih

theorem chain'_pyStrip (R : Char → Char → Prop) (l : List Char)
    (h : l.Chain' R) : (pyStrip l).Chain' R := by
  unfold pyStrip
  rw [List.chain'_reverse]
  apply List.Chain'.suffix ?_ (List.dropWhile_suffix isSpace)
  rw [List.chain'_reverse]
  exact h.suffix (List.dropWhile_suffix isSpace)

theorem noPS_pyStrip (l : List Char) (h : noPS l = true) :
    noPS (pyStrip l) = true := by
  rw [noPS_iff_chain] at h ⊢
  exact chain'_pyStrip _ l h

theorem fusedSplit_subset :
    ∀ (n : Nat) (l : List Char), l.length ≤ n →
      ∀ g ∈ fusedSplit l, ∀ x ∈ g, x ∈ l := by
  intro n
  induction n with
  | zero =>
    intro l hl g hg x hx
    rw [List.eq_nil_of_length_eq_zero (Nat.le_zero.mp hl)] at hg
    simp only [fusedSplit, List.mem_singleton] at hg
    rw [hg] at hx
    exact absurd hx (List.not_mem_nil x)
  | succ n ih =>
    intro l hl g hg x hx
    match l with
    | [] =>
      simp only [fusedSplit, List.mem_singleton] at hg
      rw [hg] at hx
      exact absurd hx (List.not_mem_nil x)
    | [c] =>
      simp only [fusedSplit, List.mem_singleton] at hg
      rw [hg] at hx
      exact hx
    | c1 :: c2 :: rest =>
      have hlr : rest.length ≤ n := by
        simp only [List.length_cons] at hl
        omega
      have hlr2 : (c2 :: rest).length ≤ n := by
        simp only [List.length_cons] at hl ⊢
        omega
      simp only [fusedSplit] at hg
      by_cases hcond : isPunct c1 = true ∧ c2 = ' '
      · rw [if_pos hcond] at hg
        rcases List.mem_cons.mp hg with rfl | hg2
        · rw [List.mem_singleton.mp hx]
          exact List.mem_cons_self _ _
        · exact List.mem_cons_of_mem _ (List.mem_cons_of_mem _
            (ih rest hlr g hg2 x hx))
      · rw [if_neg hcond] at hg
        cases hfg : fusedSplit (c2 :: rest) with
        | nil => exact absurd hfg (fusedSplit_ne_nil _)
        | cons g0 gs =>
          rw [hfg] at hg
          rcases List.mem_cons.mp hg with rfl | hg2
          · rcases List.mem_cons.mp hx with rfl | hx2
            · exact List.mem_cons_self _ _
            · exact List.mem_cons_of_mem _
                (ih (c2 :: rest) hlr2 g0 (hfg ▸ List.mem_cons_self _ _) x hx2)
          · exact List.mem_cons_of_mem _
              (ih (c2 :: rest) hlr2 g (hfg ▸ List.mem_cons_of_mem _ hg2) x hx)

theorem fusedSplit_noPS :
    ∀ (n : Nat) (l : List Char), l.length ≤ n →
      ∀ g ∈ fusedSplit l, noPS g = true := by
  intro n
  induction n with
  | zero =>
    intro l hl g hg
    rw [List.eq_nil_of_length_eq_zero (Nat.le_zero.mp hl)] at hg
    simp only [fusedSplit, List.mem_singleton] at hg
    rw [hg]
    rfl
  | succ n ih =>
    intro l hl g hg
    match l with
    | [] =>
      simp only [fusedSplit, List.mem_singleton] at hg
      rw [hg]
      rfl
    | [c] =>
      simp only [fusedSplit, List.mem_singleton] at hg
      rw [hg]
      rfl
    | c1 :: c2 :: rest =>
      have hlr : rest.length ≤ n := by
        simp only [List.length_cons] at hl
        omega
      have hlr2 : (c2 :: rest).length ≤ n := by
        simp only [List.length_cons] at hl ⊢
        omega
      simp only [fusedSplit] at hg
      by_cases hcond : isPunct c1 = true ∧ c2 = ' '
      · rw [if_pos hcond] at hg
        rcases List.mem_cons.mp hg with rfl | hg2
        · rfl
        · exact ih rest hlr g hg2
      · rw [if_neg hcond] at hg
        cases hfg : fusedSplit (c2 :: rest) with
        | nil => exact absurd hfg (fusedSplit_ne_nil _)
        | cons g0 gs =>
          rw [hfg] at hg
          rcases List.mem_cons.mp hg with rfl | hg2
          · obtain ⟨g', gs', hg', hhead⟩ := fusedSplit_first_head (c2 :: rest) (by simp)
            rw [hfg] at hg'
            obtain ⟨rfl, -⟩ : g0 = g' ∧ gs = gs' := by
              exact ⟨(List.cons.injEq _ _ _ _ ▸ hg').1, (List.cons.injEq _ _ _ _ ▸ hg').2⟩
            refine noPS_cons_of c1 g0
              (ih (c2 :: rest) hlr2 g0 (hfg ▸ List.mem_cons_self _ _)) ?_
            intro d hd
            rw [hhead] at hd
            have hdc2 : d = c2 := by
              simp only [List.head?_cons, Option.some.injEq] at hd
              exact hd.symm
            subst hdc2
            by_cases hp : isPunct c1 = true
            · have hne : ¬(d = ' ') := fun hc => hcond ⟨hp, hc⟩
              simp [hp, hne]
            · rw [Bool.not_eq_true] at hp
              simp [hp]
          · exact ih (c2 :: rest) hlr2 g (hfg ▸ List.mem_cons_of_mem _ hg2)

theorem endsPunct_ne_nil (g : List Char) (h : endsPunct g = true) : g ≠ [] := by
  intro hg
  rw [hg] at h
  exact absurd h (by decide)

theorem endsPunct_cons (c : Char) (g : List Char) (hg : g ≠ []) :
    endsPunct (c :: g) = endsPunct g := by
  cases g with
  | nil => exact absurd rfl hg
  | cons d r => rw [endsPunct, endsPunct, List.getLast?_cons_cons]

theorem fusedSplit_dropLast_endsPunct :
    ∀ (n : Nat) (l : List Char), l.length ≤ n →
      ∀ g ∈ (fusedSplit l).dropLast, endsPunct g = true := by
  intro n
  induction n with
  | zero =>
    intro l hl g hg
    rw [List.eq_nil_of_length_eq_zero (Nat.le_zero.mp hl)] at hg
    simp [fusedSplit] at hg
  | succ n ih =>
    intro l hl g hg
    match l with
    | [] => simp [fusedSplit] at hg
    | [c] => simp [fusedSplit] at hg
    | c1 :: c2 :: rest =>
      have hlr : rest.length ≤ n := by
        simp only [List.length_cons] at hl
        omega
      have hlr2 : (c2 :: rest).length ≤ n := by
        simp only [List.length_cons] at hl ⊢
        omega
      simp only [fusedSplit] at hg
      by_cases hcond : isPunct c1 = true ∧ c2 = ' '
      · rw [if_pos hcond] at hg
        cases hfr : fusedSplit rest with
        | nil => exact absurd hfr (fusedSplit_ne_nil _)
        | cons f0 fs =>
          rw [hfr, List.dropLast_cons₂] at hg
          rcases List.mem_cons.mp hg with rfl | hg2
          · simp [endsPunct, hcond.1]
          · exact ih rest hlr g (by rw [hfr]; exact hg2)
      · rw [if_neg hcond] at hg
        cases hfg : fusedSplit (c2 :: rest) with
        | nil => exact absurd hfg (fusedSplit_ne_nil _)
        | cons g0 gs =>
          rw [hfg] at hg
          cases gs with
          | nil => simp at hg
          | cons g1 gs' =>
            rw [List.dropLast_cons₂] at hg
            have hmem0 : g0 ∈ (fusedSplit (c2 :: rest)).dropLast := by
              rw [hfg, List.dropLast_cons₂]
              exact List.mem_cons_self _ _
            have hg0 : endsPunct g0 = true := ih (c2 :: rest) hlr2 g0 hmem0
            rcases List.mem_cons.mp hg with rfl | hg2
            · rw [endsPunct_cons c1 g0 (endsPunct_ne_nil g0 hg0)]
              exact hg0
            · have hmem2 : g ∈ (fusedSplit (c2 :: rest)).dropLast := by
                rw [hfg, List.dropLast_cons₂]
                exact List.mem_cons_of_mem _ hg2
              exact ih (c2 :: rest) hlr2 g hmem2

theorem fusedSplit_noPS_single (p : List Char) (hps : noPS p = true) (hne : p ≠ []) :
    fusedSplit p = [p] := by
  induction p with
  | nil => exact absurd rfl hne
  | cons c p' ih =>
    cases p' with
    | nil => rfl
    | cons d p'' =>
      have hpair : ¬(isPunct c = true ∧ d = ' ') := by
        rw [noPS, Bool.and_eq_true, Bool.not_eq_true'] at hps
        intro hcd
        rw [hcd.1, hcd.2] at hps
        exact absurd hps.1 (by simp)
      have htail : noPS (d :: p'') = true := noPS_tail c _ hps
      simp only [fusedSplit, if_neg hpair, ih htail (by simp)]

theorem fusedSplit_peel (p : List Char) (hps : noPS p = true)
    (hend : endsPunct p = true) (w : List Char) :
    fusedSplit (p ++ ' ' :: w) = p :: fusedSplit w := by
  induction p with
  | nil => exact absurd hend (by simp [endsPunct])
  | cons c p' ih =>
    cases p' with
    | nil =>
      have hc : isPunct c = true := by
        rw [endsPunct] at hend
        simpa using hend
      simp [fusedSplit, hc]
    | cons d p'' =>
      have hpair : ¬(isPunct c = true ∧ d = ' ') := by
        rw [noPS, Bool.and_eq_true, Bool.not_eq_true'] at hps
        intro hcd
        rw [hcd.1, hcd.2] at hps
        exact absurd hps.1 (by simp)
      have htail : noPS (d :: p'') = true := noPS_tail c _ hps
      have hendt : endsPunct (d :: p'') = true := by
        rw [endsPunct_cons c _ (by simp)] at hend
        exact hend
      have := ih htail hendt
      simp only [List.cons_append] at this ⊢
      simp only [fusedSplit, if_neg hpair, this]

theorem pyJoin_cons₂ (sep s t : List Char) (rest : List (List Char)) :
    pyJoin sep (s :: t :: rest) = s ++ sep ++ pyJoin sep (t :: rest) := rfl

theorem pyJoin_bar_free (ps : List (List Char)) (h : ∀ p ∈ ps, '|' ∉ p) :
    '|' ∉ pyJoin [' '] ps := by
  induction ps with
  | nil => simp [pyJoin]
  | cons p ps' ih =>
    cases ps' with
    | nil => exact h p (List.mem_cons_self _ _)
    | cons q ps'' =>
      rw [pyJoin_cons₂]
      intro hm
      rcases List.mem_append.mp hm with hm2 | hm2
      · rcases List.mem_append.mp hm2 with hm3 | hm3
        · exact h p (List.mem_cons_self _ _) hm3
        · exact absurd (List.mem_singleton.mp hm3) (by decide)
      · exact ih (fun r hr => h r (List.mem_cons_of_mem _ hr)) hm2

theorem resplit_join : ∀ ps : List (List Char),
    (∀ p ∈ ps, p ≠ [] ∧ noPS p = true ∧ pyStrip p = p) →
    (∀ p ∈ ps.dropLast, endsPunct p = true) →
    ((fusedSplit (pyJoin [' '] ps)).map pyStrip).filter (fun p => !p.isEmpty) = ps := by
  intro ps
  induction ps with
  | nil => intro _ _; rfl
  | cons p ps' ih =>
    intro hprops hends
    obtain ⟨hne, hps, hstr⟩ := hprops p (List.mem_cons_self _ _)
    cases ps' with
    | nil =>
      show ((fusedSplit p).map pyStrip).filter (fun p => !p.isEmpty) = [p]
      rw [fusedSplit_noPS_single p hps hne, List.map_singleton, hstr]
      have hpe : (!p.isEmpty) = true := by
        cases p with
        | nil => exact absurd rfl hne
        | cons a b => rfl
      simp [hpe]
    | cons q ps'' =>
      have hend : endsPunct p = true := by
        apply hends
        rw [List.dropLast_cons₂]
        exact List.mem_cons_self _ _
      have hjoin : pyJoin [' '] (p :: q :: ps'')
          = p ++ ' ' :: pyJoin [' '] (q :: ps'') := by
        rw [pyJoin_cons₂, List.append_assoc, List.singleton_append]
      rw [hjoin, fusedSplit_peel p hps hend, List.map_cons, hstr]
      have hrest := ih (fun r hr => hprops r (List.mem_cons_of_mem _ hr))
        (fun r hr => hends r (by rw [List.dropLast_cons₂]; exact List.mem_cons_of_mem _ hr))
      rw [List.filter_cons]
      have hpe : (!p.isEmpty) = true := by
        cases p with
        | nil => exact absurd rfl hne
        | cons a b => rfl
      rw [if_pos hpe, hrest]

theorem not_isEmpty_of_ne_nil (l : List Char) (h : l ≠ []) : (!l.isEmpty) = true := by
  cases l with
  | nil => exact absurd rfl h
  | cons a b => rfl

theorem chunkLoop_ne_nil (maxChars : Nat) :
    ∀ (sents : List (List Char)) (current : List Char), current ≠ [] →
      chunkLoop maxChars sents current ≠ [] := by
  intro sents
  induction sents with
  | nil =>
    intro current hc
    rw [chunkLoop_nil_emit maxChars current hc]
    simp
  | cons s rest ih =>
    intro current hc
    by_cases hs : pyStrip s = []
    · rw [show chunkLoop maxChars (s :: rest) current = chunkLoop maxChars rest current
        from by simp only [chunkLoop, if_pos hs]]
      exact ih current hc
    · by_cases hover : maxChars < current.length + (pyStrip s).length + 1
      · rw [chunkLoop_cons_emit maxChars s rest current hs hover hc]
        simp
      · rw [show chunkLoop maxChars (s :: rest) current
            = chunkLoop maxChars rest (current ++ ' ' :: pyStrip s)
          from by simp only [chunkLoop, if_neg hs, if_neg hover, if_neg hc]]
        exact ih _ (by simp)

theorem pyJoin_cons_ne (sep s : List Char) (rest : List (List Char)) (h : rest ≠ []) :
    pyJoin sep (s :: rest) = s ++ sep ++ pyJoin sep rest := by
  cases rest with
  | nil => exact absurd rfl h
  | cons t r => exact pyJoin_cons₂ sep s t r

theorem pyJoin_glue (x y : List Char) (L : List (List Char)) :
    pyJoin [' '] ((x ++ ' ' :: y) :: L) = pyJoin [' '] (x :: y :: L) := by
  cases L with
  | nil => simp [pyJoin, pyJoin_cons₂, List.append_assoc]
  | cons z L' =>
    rw [pyJoin_cons₂, pyJoin_cons₂, pyJoin_cons₂]
    simp [List.append_assoc]

theorem chunkLoop_join (maxChars : Nat) :
    ∀ (sents : List (List Char)) (current : List Char),
      pyStrip current = current →
      pyJoin [' '] (chunkLoop maxChars sents current)
        = pyJoin [' '] ((if current = [] then [] else [current])
            ++ ((sents.map pyStrip).filter (fun p => !p.isEmpty))) := by
  intro sents
  induction sents with
  | nil =>
    intro current hstr
    by_cases hc : current = []
    · subst hc
      rfl
    · rw [chunkLoop_nil_emit maxChars current hc, hstr, if_neg hc]
      simp
  | cons s rest ih =>
    intro current hstr
    by_cases hs : pyStrip s = []
    · rw [show chunkLoop maxChars (s :: rest) current = chunkLoop maxChars rest current
        from by simp only [chunkLoop, if_pos hs], ih current hstr,
        List.map_cons, hs, List.filter_cons]
      simp
    · have hpe : (!(pyStrip s).isEmpty) = true := not_isEmpty_of_ne_nil _ hs
      by_cases hover : maxChars < current.length + (pyStrip s).length + 1
      · by_cases hc : current = []
        · subst hc
          rw [chunkLoop_cons_fresh maxChars s rest hs (by simpa using hover),
            ih (pyStrip s) (pyStrip_idem s), if_neg hs, if_pos rfl,
            List.map_cons, List.filter_cons, if_pos hpe]
          simp
        · rw [chunkLoop_cons_emit maxChars s rest current hs hover hc, hstr,
            pyJoin_cons_ne _ _ _ (chunkLoop_ne_nil maxChars rest (pyStrip s) hs),
            ih (pyStrip s) (pyStrip_idem s), if_neg hs, if_neg hc,
            List.map_cons, List.filter_cons, if_pos hpe,
            List.singleton_append, List.singleton_append,
            pyJoin_cons₂]
      · by_cases hc : current = []
        · subst hc
          rw [show chunkLoop maxChars (s :: rest) [] = chunkLoop maxChars rest (pyStrip s)
              from by simp only [chunkLoop, if_neg hs, if_neg hover]; simp,
            ih (pyStrip s) (pyStrip_idem s), if_neg hs, if_pos rfl,
            List.map_cons, List.filter_cons, if_pos hpe]
          simp
        · rw [show chunkLoop maxChars (s :: rest) current
              = chunkLoop maxChars rest (current ++ ' ' :: pyStrip s)
            from by simp only [chunkLoop, if_neg hs, if_neg hover, if_neg hc],
            ih _ (pyStrip_append_space current (pyStrip s) hstr hc (pyStrip_idem s) hs),
            if_neg (show ¬(current ++ ' ' :: pyStrip s = []) by simp), if_neg hc,
            List.map_cons, List.filter_cons, if_pos hpe,
            List.singleton_append, List.singleton_append, pyJoin_glue]

theorem getLast?_some_ne_nil (l : List Char) (c : Char) (h : l.getLast? = some c) :
    l ≠ [] := by
  intro hn
  rw [hn] at h
  exact absurd h (by simp)

theorem mem_of_getLast?_eq (l : List Char) (c : Char) (h : l.getLast? = some c) :
    c ∈ l := by
  rw [List.getLast?_eq_head?_reverse] at h
  exact List.mem_reverse.mp (List.mem_of_mem_head? (h ▸ rfl))

theorem punct_not_space (c : Char) (h : isPunct c = true) : isSpace c = false := by
  rw [isPunct] at h
  simp only [Bool.or_eq_true, decide_eq_true_eq] at h
  rcases h with (rfl | rfl) | rfl <;> decide

theorem endsPunct_getLast (g : List Char) (h : endsPunct g = true) :
    ∃ c, g.getLast? = some c ∧ isPunct c = true := by
  rw [endsPunct] at h
  cases hgl : g.getLast? with
  | none => rw [hgl] at h; exact absurd h (by simp)
  | some c =>
    rw [hgl] at h
    exact ⟨c, rfl, h⟩

theorem pyStrip_getLast (q : List Char) (c : Char) (hlast : q.getLast? = some c)
    (hns : isSpace c = false) : (pyStrip q).getLast? = some c := by
  have hmne : q.dropWhile isSpace ≠ [] := by
    intro hnil
    rw [List.dropWhile_eq_nil_iff] at hnil
    have := hnil c (mem_of_getLast?_eq q c hlast)
    rw [hns] at this
    exact absurd this (by simp)
  have hml : (q.dropWhile isSpace).getLast? = some c := by
    rw [← getLast?_of_suffix (List.dropWhile_suffix isSpace) hmne]
    exact hlast
  unfold pyStrip
  have hrev : (q.dropWhile isSpace).reverse.head? = some c := by
    rw [List.head?_reverse]
    exact hml
  cases hrevl : (q.dropWhile isSpace).reverse with
  | nil => rw [hrevl] at hrev; exact absurd hrev (by simp)
  | cons d r =>
    have hdc : d = c := by
      rw [hrevl] at hrev
      exact Option.some.inj hrev
    have hnd : ¬(isSpace d = true) := by
      rw [hdc, hns]
      simp
    rw [List.dropWhile_cons_of_neg hnd, List.getLast?_reverse]
    simp [hdc]

theorem ne_nil_of_not_isEmpty (l : List Char) (h : (!l.isEmpty) = true) : l ≠ [] := by
  intro hn
  rw [hn] at h
  exact absurd h (by decide)

/-- C4 (amended): for every text without the `'|'` separator character, the
space-join of the segments contains exactly the input's sentences (stripped,
non-empty, as split at sentence punctuation followed by a space), in the
original order: re-splitting the join recovers the same sentence sequence as
splitting the input.  (For texts containing `'|'`, or through whitespace
trimmed at sentence boundaries, the join can differ from the input beyond
whitespace normalization - see the counterexample.) -/
theorem claim_C4_content_preserved (T : List Char) (maxChars : Nat) (hbar : '|' ∉ T) :
    sentencesOf (pyJoin [' '] (chunk_text T maxChars)) = sentencesOf T := by
  by_cases hle : T.length ≤ maxChars
  · rw [chunk_text, if_pos hle]
    rfl
  · rw [chunk_text, if_neg hle]
    have hF : sentenceSplit T = fusedSplit T := sentenceSplit_eq_fused T hbar
    have h1 : pyJoin [' '] (chunkLoop maxChars (sentenceSplit T) [])
        = pyJoin [' '] (sentencesOf T) := by
      rw [chunkLoop_join maxChars (sentenceSplit T) [] rfl, if_pos rfl,
        List.nil_append]
      rfl
    rw [h1]
    have hprops : ∀ p ∈ sentencesOf T, p ≠ [] ∧ noPS p = true ∧ pyStrip p = p := by
      intro p hp
      rw [sentencesOf, hF] at hp
      obtain ⟨hpf, hpne⟩ := List.mem_filter.mp hp
      obtain ⟨q, hq, rfl⟩ := List.mem_map.mp hpf
      exact ⟨ne_nil_of_not_isEmpty _ hpne,
        noPS_pyStrip q (fusedSplit_noPS T.length T (Nat.le_refl _) q hq),
        pyStrip_idem q⟩
    have hbars : ∀ p ∈ sentencesOf T, '|' ∉ p := by
      intro p hp hmem
      rw [sentencesOf, hF] at hp
      obtain ⟨hpf, -⟩ := List.mem_filter.mp hp
      obtain ⟨q, hq, rfl⟩ := List.mem_map.mp hpf
      exact hbar (fusedSplit_subset T.length T (Nat.le_refl _) q hq '|'
        (pyStrip_subset q hmem))
    have hA : ∀ p ∈ (fusedSplit T).dropLast.map pyStrip, endsPunct p = true := by
      intro p hp
      obtain ⟨g, hg, rfl⟩ := List.mem_map.mp hp
      obtain ⟨c, hgl, hcp⟩ := endsPunct_getLast g
        (fusedSplit_dropLast_endsPunct T.length T (Nat.le_refl _) g hg)
      have := pyStrip_getLast g c hgl (punct_not_space c hcp)
      simp [endsPunct, this, hcp]
    have hsplit : sentencesOf T = (fusedSplit T).dropLast.map pyStrip
        ++ ([pyStrip ((fusedSplit T).getLast (fusedSplit_ne_nil T))].filter
            (fun p => !p.isEmpty)) := by
      rw [sentencesOf, hF]
      conv_lhs => rw [← List.dropLast_append_getLast (fusedSplit_ne_nil T)]
      rw [List.map_append, List.filter_append, List.map_singleton]
      congr 1
      apply List.filter_eq_self.mpr
      intro a ha
      obtain ⟨g, hg, rfl⟩ := List.mem_map.mp ha
      obtain ⟨c, hgl, hcp⟩ := endsPunct_getLast g
        (fusedSplit_dropLast_endsPunct T.length T (Nat.le_refl _) g hg)
      exact not_isEmpty_of_ne_nil _ (getLast?_some_ne_nil _ c
        (pyStrip_getLast g c hgl (punct_not_space c hcp)))
    have hends : ∀ p ∈ (sentencesOf T).dropLast, endsPunct p = true := by
      intro p hp
      rw [hsplit] at hp
      cases hfl : [pyStrip ((fusedSplit T).getLast (fusedSplit_ne_nil T))].filter
          (fun p => !p.isEmpty) with
      | nil =>
        rw [hfl, List.append_nil] at hp
        exact hA p ((List.dropLast_sublist _).subset hp)
      | cons v vs =>
        have hvs : vs = [] := by
          have hle1 : (v :: vs).length ≤ 1 := by
            rw [← hfl]
            simpa using List.length_filter_le (fun p : List Char => !p.isEmpty)
              [pyStrip ((fusedSplit T).getLast (fusedSplit_ne_nil T))]
          rw [List.length_cons] at hle1
          exact List.eq_nil_of_length_eq_zero (by omega)
        subst hvs
        rw [hfl, List.dropLast_concat] at hp
        exact hA p hp
    have hbarJ : '|' ∉ pyJoin [' '] (sentencesOf T) := pyJoin_bar_free _ hbars
    show sentencesOf (pyJoin [' '] (sentencesOf T)) = sentencesOf T
    rw [sentencesOf, sentenceSplit_eq_fused _ hbarJ]
    exact resplit_join (sentencesOf T) hprops hends

theorem claim_C4_witness :
    ('|' ∉ ("ab. cd! ef").data) ∧
      sentencesOf (pyJoin [' '] (chunk_text (("ab. cd! ef").data) 4))
        = sentencesOf (("ab. cd! ef").data) :=
  ⟨by decide, claim_C4_content_preserved (("ab. cd! ef").data) 4 (by decide)⟩

theorem claim_C10_witness :
    (pyUpper (("txt").data) = ("TXT").data) ∧
      ∃ bs nm, export_summary (fun _ _ => []) (("hi").data) (("txt").data) none
        = .ok (bs, nm, ("text/plain").data) :=
  ⟨by decide,
    (claim_C10_export_dispatch (fun _ _ => []) (("hi").data) (("txt").data) none).1
      (by decide)⟩

end YtSum
